import Mathlib

/-!
Verification of the MMDET repository fragments against their specification.

Shallow embedding conventions:
* torch tensors holding feature maps are rectangular nested lists of
  rationals (`Tensor` below, batch/channel/row/column major as in NCHW);
* framework primitives that the repository calls but does not define
  (adaptive max pooling, nearest interpolation, convolution modules,
  the IoU assigner/sampler, `bbox2delta`, image IO and transforms) are
  modelled either mathematically from their documented semantics or as
  abstract function parameters;
* Python exceptions are explicit error constructors; in-place mutation is
  explicit state passing;
* randomness (flip draw, scale draw, `_rand_another`) is passed in as
  already-drawn values or as an abstract choice function.
-/

/-! ## Feature-map tensors (mmdet/models/necks/bfp.py) -/

/-- One spatial plane of a feature map: rows of rationals. -/
abbrev Plane := List (List ℚ)

/-- A 4-d NCHW tensor: batch of channels of planes. -/
abbrev Tensor := List (List Plane)

/-- Maximum of a list of rationals (0 on the empty list; adaptive pooling
only takes the maximum of nonempty windows on nonempty inputs). -/
def qMax : List ℚ → ℚ
  | [] => 0
  | x :: xs => xs.foldl max x

/-- Half-open row/column range pooled into output cell `i` by torch's
`adaptive_max_pool2d`: `[⌊i·in/out⌋, ⌈(i+1)·in/out⌉)`. -/
def adaptiveRange (inSize outSize i : ℕ) : ℕ × ℕ :=
  (i * inSize / outSize, ((i + 1) * inSize + outSize - 1) / outSize)

/-- Adaptive max pooling of a single plane to spatial size `oh × ow`
(semantics of `torch.nn.functional.adaptive_max_pool2d`). -/
def planeAdaptiveMaxPool (p : Plane) (oh ow : ℕ) : Plane :=
  let h := p.length
  let w := (p.headD []).length
  (List.range oh).map (fun i =>
    (List.range ow).map (fun j =>
      let ri := adaptiveRange h oh i
      let rj := adaptiveRange w ow j
      qMax (((List.range (ri.2 - ri.1)).map (fun a =>
        let row := p.getD (ri.1 + a) []
        (List.range (rj.2 - rj.1)).map (fun b => row.getD (rj.1 + b) 0))).flatten)))

/-- Nearest-neighbour interpolation of a single plane to `oh × ow`
(semantics of `torch.nn.functional.interpolate(..., mode='nearest')`:
source index `⌊dst·in/out⌋`). -/
def planeInterpNearest (p : Plane) (oh ow : ℕ) : Plane :=
  let h := p.length
  let w := (p.headD []).length
  (List.range oh).map (fun i =>
    (List.range ow).map (fun j =>
      (p.getD (i * h / oh) []).getD (j * w / ow) 0))

/-- Applies a plane operation over every batch element and channel. -/
def tensorMapPlane (f : Plane → Plane) (t : Tensor) : Tensor :=
  t.map (fun chs => chs.map f)

/-- `F.adaptive_max_pool2d(t, output_size=sz)`. -/
def adaptiveMaxPool2d (t : Tensor) (sz : ℕ × ℕ) : Tensor :=
  tensorMapPlane (fun p => planeAdaptiveMaxPool p sz.1 sz.2) t

/-- `F.interpolate(t, size=sz, mode='nearest')`. -/
def interpolateNearest (t : Tensor) (sz : ℕ × ℕ) : Tensor :=
  tensorMapPlane (fun p => planeInterpNearest p sz.1 sz.2) t

/-- Elementwise sum of two tensors (torch `+` on equal-shaped tensors). -/
def tensorAdd (t u : Tensor) : Tensor :=
  List.zipWith (fun cs ds =>
    List.zipWith (fun p q => List.zipWith (fun r s => List.zipWith (· + ·) r s) p q) cs ds) t u

/-- Python `sum(feats)` over a nonempty list of equal-shaped tensors. -/
def tensorSum : List Tensor → Tensor
  | [] => []
  | t :: ts => ts.foldl tensorAdd t

/-- Division of every entry by a natural scalar (`bsf / len(feats)`). -/
def tensorScalarDiv (t : Tensor) (n : ℕ) : Tensor :=
  t.map (fun cs => cs.map (fun p => p.map (fun r => r.map (fun x => x / (n : ℚ)))))

/-- Spatial size `t.size()[2:]` of an NCHW tensor. -/
def tSpatial (t : Tensor) : ℕ × ℕ :=
  let p := (t.headD []).headD []
  (p.length, (p.headD []).length)

/-- Channel-wise concatenation `torch.cat(ts, dim=1)` (all tensors share
the batch length of the first). -/
def catChannels (ts : List Tensor) : Tensor :=
  match ts with
  | [] => []
  | t0 :: _ => (List.range t0.length).map (fun b => (ts.map (fun t => t.getD b [])).flatten)

/-- Rectangularity of a tensor: batch `n`, channels `c`, spatial `h × w`. -/
def IsRect (t : Tensor) (n c h w : ℕ) : Prop :=
  t.length = n ∧ ∀ chs ∈ t, chs.length = c ∧
    ∀ p ∈ chs, p.length = h ∧ ∀ r ∈ p, r.length = w

instance (t : Tensor) (n c h w : ℕ) : Decidable (IsRect t n c h w) := by
  unfold IsRect; infer_instance

/-- Dynamically nested Python value returned by `BFP.forward`: the
`output_single_lvl` branch with a refine op returns a singleton list that
itself contains a list (`feats = [self.refine(feats)]; return [feats]`). -/
inductive PyT where
  | tensor (t : Tensor)
  | group (xs : List PyT)

/-- Shallow embedding of `BFP.forward` (mmdet/models/necks/bfp.py, lines
84-118).  `hasRefine` is `refine_type is not None`; `refine` abstracts the
external `ConvModule`/`NonLocal2D` refine operator; `none` models the
failure of `assert len(inputs) == self.num_levels`. -/
def BFP_forward (num_levels refine_level : ℕ) (hasRefine output_single_lvl : Bool)
    (refine : Tensor → Tensor) (inputs : List Tensor) : Option (List PyT) :=
  if inputs.length ≠ num_levels then none else
  let gather_size := tSpatial (inputs.getD refine_level [])
  let feats := (List.range num_levels).map (fun i =>
    if i < refine_level then adaptiveMaxPool2d (inputs.getD i []) gather_size
    else interpolateNearest (inputs.getD i []) gather_size)
  if output_single_lvl = false then
    let bsf := tensorScalarDiv (tensorSum feats) feats.length
    let bsf2 := if hasRefine then refine bsf else bsf
    some ((List.range num_levels).map (fun i =>
      let out_size := tSpatial (inputs.getD i [])
      let residual := if i < refine_level then interpolateNearest bsf2 out_size
        else adaptiveMaxPool2d bsf2 out_size
      PyT.tensor (tensorAdd residual (inputs.getD i []))))
  else
    let cat := catChannels feats
    if hasRefine then some [PyT.group [PyT.tensor (refine cat)]]
    else some [PyT.tensor cat]

/-- Spec-side description of the `output_single_lvl`-disabled branch of
`BFP.forward`, written from the claim: every level is resized to the
spatial size of the `refine_level` input (below it by adaptive max
pooling, at or above it by nearest interpolation), the resized maps are
averaged over `num_levels`, optionally refined, and level `i` of the
output is `inputs[i]` plus the integrated feature resized back to the
spatial size of `inputs[i]`. -/
def BFP_multi_described (num_levels refine_level : ℕ) (hasRefine : Bool)
    (refine : Tensor → Tensor) (inputs : List Tensor) : List Tensor :=
  let refSize := tSpatial (inputs.getD refine_level [])
  let resized := (List.range num_levels).map (fun i =>
    if i < refine_level then adaptiveMaxPool2d (inputs.getD i []) refSize
    else interpolateNearest (inputs.getD i []) refSize)
  let integrated := tensorScalarDiv (tensorSum resized) num_levels
  let integrated2 := if hasRefine then refine integrated else integrated
  (List.range num_levels).map (fun i =>
    let sz := tSpatial (inputs.getD i [])
    let back := if i < refine_level then interpolateNearest integrated2 sz
      else adaptiveMaxPool2d integrated2 sz
    tensorAdd back (inputs.getD i []))

/-- Shallow embedding of `FRCNBFP.forward` (bfp.py, lines 170-189).
`ctx i` abstracts `self.ContextModuleList[i]` (external conv stacks);
`none` models the failure of `assert len(inputs) == self.num_levels`. -/
def FRCNBFP_forward (num_levels refine_level : ℕ) (ctx : ℕ → Tensor → Tensor)
    (inputs : List Tensor) : Option (List Tensor) :=
  if inputs.length ≠ num_levels then none else
  let gather_size := tSpatial (inputs.getD refine_level [])
  let feats := (List.range num_levels).map (fun i =>
    if i < refine_level then adaptiveMaxPool2d (inputs.getD i []) gather_size
    else interpolateNearest (inputs.getD i []) gather_size)
  let feats2 := (List.range feats.length).map (fun i => ctx i (feats.getD i []))
  some [catChannels feats2]

/-! ## Detector base class (mmdet/models/detectors/base.py) -/

/-- A Python argument that is expected to be a list: either an actual list
of `α` or a non-list value carrying the name of its type. -/
inductive PyList (α : Type) where
  | list (xs : List α)
  | notList (tyName : String)

/-- Exceptions raised by `BaseDetector.forward_test`. -/
inductive PyErr where
  | typeErr (argName : String) (tyName : String)
  | valueErr (n m : ℕ)
  | indexErr
  | assertErr
deriving DecidableEq

/-- Abstract detector: the abstract methods of `BaseDetector`, to which
`forward`/`forward_test` dispatch.  `M` is the metadata type, `K` the
keyword-argument record, `R` the result type. -/
structure Detector (M K R : Type) where
  forward_train : PyList Tensor → PyList M → K → R
  simple_test : Tensor → M → K → R
  aug_test : List Tensor → List M → K → R

/-- Shallow embedding of `BaseDetector.forward_test` (base.py, lines
65-83).  The two `isinstance` checks raise `TypeError` in order; the
augmentation-count check raises `ValueError`; `imgs[0]` on an empty list
raises `IndexError`; `assert imgs_per_gpu == 1` checks the batch dimension
of the first image tensor. -/
def BaseDetector_forward_test {M K R : Type} (d : Detector M K R)
    (imgs : PyList Tensor) (img_metas : PyList M) (kw : K) : Except PyErr R :=
  match imgs with
  | PyList.notList ty => Except.error (PyErr.typeErr "imgs" ty)
  | PyList.list il =>
    match img_metas with
    | PyList.notList ty => Except.error (PyErr.typeErr "img_metas" ty)
    | PyList.list ml =>
      let num_augs := il.length
      if num_augs ≠ ml.length then Except.error (PyErr.valueErr il.length ml.length)
      else
        match il with
        | [] => Except.error PyErr.indexErr
        | im0 :: _ =>
          let imgs_per_gpu := im0.length
          if imgs_per_gpu ≠ 1 then Except.error PyErr.assertErr
          else if num_augs = 1 then
            match ml with
            | [] => Except.error PyErr.indexErr
            | m0 :: _ => Except.ok (d.simple_test im0 m0 kw)
          else Except.ok (d.aug_test il ml kw)

/-- Shallow embedding of `BaseDetector.forward` (base.py, lines 85-90).
The `auto_fp16` decorator is external and acts as the identity here
(`self.fp16_enabled` is set to `False` in `BaseDetector.__init__`). -/
def BaseDetector_forward {M K R : Type} (d : Detector M K R)
    (img : PyList Tensor) (img_meta : PyList M) (return_loss : Bool) (kw : K) :
    Except PyErr R :=
  if return_loss then Except.ok (d.forward_train img img_meta kw)
  else BaseDetector_forward_test d img img_meta kw

/-! ## Anchor targets (mmdet/core/anchor/anchor_target.py) -/

/-- A bounding box `(x1, y1, x2, y2)` with rational coordinates. -/
abbrev Box := ℚ × ℚ × ℚ × ℚ

/-- Boolean-mask selection `t[flags, :]` (torch advanced indexing). -/
def maskSelect {α : Type} : List α → List Bool → List α
  | [], _ => []
  | _, [] => []
  | a :: as, f :: fs => if f then a :: maskSelect as fs else maskSelect as fs

/-- Shallow embedding of `unmap` (anchor_target.py, lines 198-208): scatter
`data` back to a list of `flags.length` slots, writing the next datum at
each true flag and `fill` at each false flag. -/
def unmap {α : Type} : List α → List Bool → α → List α
  | _, [], _ => []
  | data, true :: fs, fill => data.headD fill :: unmap data.tail fs fill
  | data, false :: fs, fill => fill :: unmap data fs fill

/-- Vectorised write `l[inds] = v` (torch index assignment with a scalar). -/
def setAll {α : Type} (v : α) : List α → List ℕ → List α
  | l, [] => l
  | l, i :: is => setAll v (l.set i v) is

/-- Vectorised write `l[inds] = vals` (torch index assignment with a
tensor of the same leading length). -/
def setVals {α : Type} : List α → List ℕ → List α → List α
  | l, [], _ => l
  | l, _, [] => l
  | l, i :: is, v :: vs => setVals (l.set i v) is vs

/-- Shallow embedding of `anchor_inside_flags` (anchor_target.py, lines
184-195). -/
def anchor_inside_flags (flat_anchors : List Box) (valid_flags : List Bool)
    (img_h img_w : ℚ) (allowed_border : ℤ) : List Bool :=
  if 0 ≤ allowed_border then
    List.zipWith (fun a v =>
      v && decide (-(allowed_border : ℚ) ≤ a.1)
        && decide (-(allowed_border : ℚ) ≤ a.2.1)
        && decide (a.2.2.1 < img_w + (allowed_border : ℚ))
        && decide (a.2.2.2 < img_h + (allowed_border : ℚ))) flat_anchors valid_flags
  else valid_flags

/-- Result of the external IoU assigner/sampler
(`assign_and_sample` or `build_assigner` + `PseudoSampler` from
`mmdet.core.bbox`): sampled positive and negative anchor indices (into the
inside-anchor list) and, for each positive, the index of its assigned
ground-truth box.  The external `SamplingResult` stores
`pos_bboxes = bboxes[pos_inds]` and
`pos_gt_bboxes = gt_bboxes[pos_assigned_gt_inds]`, which we derive. -/
structure SamplingResult where
  pos_inds : List ℕ
  neg_inds : List ℕ
  pos_assigned_gt_inds : List ℕ

/-- Return value of `anchor_target_single`: `allNone` is the
`return (None, ) * 6` path taken when no anchor is inside the allowed
border; `err` is a failed `assert`; `res` carries the six results, with
`none` for the `pos_inds`/`neg_inds` slots on the empty-ground-truth
path. -/
inductive ATSRes where
  | allNone
  | err
  | res (labels : List ℤ) (label_weights : List ℚ)
      (bbox_targets bbox_weights : List Box)
      (pos_inds neg_inds : Option (List ℕ))
deriving DecidableEq

/-- Labels slot of an `ATSRes` as `Option`, mirroring the Python caller's
`labels is None` test (which is true exactly on the `allNone` path; a
failed assert never returns). -/
def ATSRes.labelsOpt : ATSRes → Option (List ℤ)
  | ATSRes.res L _ _ _ _ _ => some L
  | _ => none

def ATSRes.labelWeightsD : ATSRes → List ℚ
  | ATSRes.res _ LW _ _ _ _ => LW
  | _ => []

def ATSRes.bboxTargetsD : ATSRes → List Box
  | ATSRes.res _ _ BT _ _ _ => BT
  | _ => []

def ATSRes.bboxWeightsD : ATSRes → List Box
  | ATSRes.res _ _ _ BW _ _ => BW
  | _ => []

def ATSRes.isErr : ATSRes → Bool
  | ATSRes.err => true
  | _ => false

def ATSRes.isAllNone : ATSRes → Bool
  | ATSRes.allNone => true
  | _ => false

/-- Shallow embedding of `anchor_target_single` (anchor_target.py, lines
101-181).  `sample_fn` abstracts the external assigner/sampler called by
either branch of the `sampling` flag; `bbox2delta_fn` abstracts the
external `bbox2delta`, applied row-wise with the given means and stds;
`img_h`/`img_w` are `img_meta['img_shape'][:2]`; `pos_weight` and
`allowed_border` come from `cfg`.  The unused `label_channels` parameter
of the source is omitted.  A ground-truth argument that is Python `None`
is modelled by the empty list (both take the `len(gt_bboxes)==0` path). -/
def anchor_target_single (flat_anchors : List Box) (valid_flags : List Bool)
    (gt_bboxes : List Box) (gt_labels : Option (List ℤ))
    (img_h img_w : ℚ) (target_means target_stds : List ℚ)
    (allowed_border : ℤ) (pos_weight : ℚ)
    (sample_fn : List Box → List Box → SamplingResult)
    (bbox2delta_fn : List ℚ → List ℚ → Box → Box → Box)
    (unmap_outputs : Bool) : ATSRes :=
  let inside_flags := anchor_inside_flags flat_anchors valid_flags img_h img_w allowed_border
  if inside_flags.any id = false then ATSRes.allNone else
  let anchors := maskSelect flat_anchors inside_flags
  let num_valid_anchors := anchors.length
  let bbox_targets0 : List Box := List.replicate num_valid_anchors (0, 0, 0, 0)
  let bbox_weights0 : List Box := List.replicate num_valid_anchors (0, 0, 0, 0)
  let labels0 : List ℤ := List.replicate num_valid_anchors 0
  let label_weights0 : List ℚ := List.replicate num_valid_anchors 0
  if gt_bboxes.isEmpty then
    let label_weights1 := List.replicate num_valid_anchors (1 : ℚ)
    ATSRes.res (unmap labels0 inside_flags 0) (unmap label_weights1 inside_flags 0)
      (unmap bbox_targets0 inside_flags (0, 0, 0, 0))
      (unmap bbox_weights0 inside_flags (0, 0, 0, 0)) none none
  else
    let sr := sample_fn anchors gt_bboxes
    let pos_inds := sr.pos_inds
    let neg_inds := sr.neg_inds
    if pos_inds.isEmpty = false ∧ 0 < pos_weight then ATSRes.err else
    let pos_bboxes := pos_inds.map (fun p => anchors.getD p (0, 0, 0, 0))
    let pos_gt_bboxes := sr.pos_assigned_gt_inds.map (fun g => gt_bboxes.getD g (0, 0, 0, 0))
    let pos_bbox_targets := List.zipWith (bbox2delta_fn target_means target_stds)
      pos_bboxes pos_gt_bboxes
    let bbox_targets1 := if pos_inds.isEmpty then bbox_targets0
      else setVals bbox_targets0 pos_inds pos_bbox_targets
    let bbox_weights1 := if pos_inds.isEmpty then bbox_weights0
      else setAll (1, 1, 1, 1) bbox_weights0 pos_inds
    let labels1 := if pos_inds.isEmpty then labels0
      else match gt_labels with
        | none => setAll 1 labels0 pos_inds
        | some gl => setVals labels0 pos_inds
            (sr.pos_assigned_gt_inds.map (fun g => gl.getD g 0))
    let label_weights1 := if pos_inds.isEmpty then label_weights0
      else setAll (1 : ℚ) label_weights0 pos_inds
    let label_weights2 := if neg_inds.isEmpty then label_weights1
      else setAll (1 : ℚ) label_weights1 neg_inds
    let labels2 := if unmap_outputs then unmap labels1 inside_flags 0 else labels1
    let label_weights3 := if unmap_outputs then unmap label_weights2 inside_flags 0
      else label_weights2
    let bbox_targets2 := if unmap_outputs then unmap bbox_targets1 inside_flags (0, 0, 0, 0)
      else bbox_targets1
    let bbox_weights2 := if unmap_outputs then unmap bbox_weights1 inside_flags (0, 0, 0, 0)
      else bbox_weights1
    if label_weights3.sum ≠ ((pos_inds.length + neg_inds.length : ℕ) : ℚ) then ATSRes.err
    else ATSRes.res labels2 label_weights3 bbox_targets2 bbox_weights2
      (some pos_inds) (some neg_inds)

/-- Well-formedness of a sampling result over `n` inside anchors and
`gtn` ground-truth boxes: index lists without duplicates, positives and
negatives disjoint, indices in range, and one assigned ground-truth index
per positive.  Every sampler shipped with the framework guarantees
this. -/
def WFSampling (sr : SamplingResult) (n gtn : ℕ) : Prop :=
  sr.pos_inds.Nodup ∧ sr.neg_inds.Nodup ∧
  (∀ p ∈ sr.pos_inds, p ∉ sr.neg_inds) ∧
  (∀ p ∈ sr.pos_inds, p < n) ∧ (∀ p ∈ sr.neg_inds, p < n) ∧
  sr.pos_assigned_gt_inds.length = sr.pos_inds.length ∧
  (∀ g ∈ sr.pos_assigned_gt_inds, g < gtn)

instance (sr : SamplingResult) (n gtn : ℕ) : Decidable (WFSampling sr n gtn) := by
  unfold WFSampling; infer_instance

/-- Entry of the Python lists `anchor_list[i]` / `valid_flag_list[i]`:
before the concatenation loop it holds per-level tensors, afterwards a
single flat tensor. -/
inductive CatState (α : Type) where
  | levels (ls : List (List α))
  | flat (l : List α)
deriving DecidableEq

/-- Python `len` of a `CatState` entry (number of levels before the
concatenation, number of rows after it). -/
def CatState.pyLen {α : Type} : CatState α → ℕ
  | CatState.levels ls => ls.length
  | CatState.flat l => l.length

/-- Reads an entry as the flat tensor it holds after concatenation. -/
def CatState.asFlat {α : Type} : CatState α → List α
  | CatState.levels ls => ls.flatten
  | CatState.flat l => l

/-- First `n` iterations of the in-place concatenation loop of
`anchor_target` (anchor_target.py, lines 38-41):
`assert len(anchor_list[i]) == len(valid_flag_list[i])` then
`anchor_list[i] = torch.cat(anchor_list[i])` and likewise for the valid
flags; `none` models the assert raising midway. -/
def catLoop {α β : Type} (as0 : List (CatState α)) (vs0 : List (CatState β)) :
    ℕ → Option (List (CatState α) × List (CatState β))
  | 0 => some (as0, vs0)
  | n + 1 =>
    match catLoop as0 vs0 n with
    | none => none
    | some (as1, vs1) =>
      let a := as1.getD n (CatState.flat [])
      let v := vs1.getD n (CatState.flat [])
      if a.pyLen ≠ v.pyLen then none
      else some (as1.set n (CatState.flat a.asFlat), vs1.set n (CatState.flat v.asFlat))

/-- Slice `l[s:e]` of a list. -/
def sliceSeg {α : Type} (l : List α) (s e : ℕ) : List α :=
  (l.drop s).take (e - s)

/-- Level slices of `images_to_levels` (anchor_target.py, lines 86-98),
starting at offset `start`.  Each level holds the per-image slices of the
stacked per-image targets; the tensor-rank artefact `squeeze(0)` (dropping
the image axis when there is exactly one image) does not change the
entries and is not reflected in the list model. -/
def images_to_levels_go {α : Type} (target : List (List α)) :
    List ℕ → ℕ → List (List (List α))
  | [], _ => []
  | n :: ns, start =>
    (target.map (fun t => sliceSeg t start (start + n))) ::
      images_to_levels_go target ns (start + n)

/-- Shallow embedding of `images_to_levels`. -/
def images_to_levels {α : Type} (target : List (List α)) (num_level_anchors : List ℕ) :
    List (List (List α)) :=
  images_to_levels_go target num_level_anchors 0

/-- First component of a box (used for `bbox_weights[:, 0]`). -/
def boxX1 (b : Box) : ℚ := b.1

/-- Final outcome of `anchor_target`: a failed assertion propagating out
of the call, the explicit `return None` when some image has no valid
anchors, or the six-tuple result. -/
inductive ATOutcome where
  | err
  | retNone
  | ok (labels_list : List (List (List ℤ)))
      (label_weights_list : List (List (List ℚ)))
      (bbox_targets_list bbox_weights_list : List (List (List Box)))
      (num_total_pos num_total_neg : ℚ)

/-- Return value of `anchor_target` together with the final (mutated)
state of the caller's `anchor_list` and `valid_flag_list`. -/
structure ATReturn where
  anchors_after : List (CatState Box)
  valids_after : List (CatState Bool)
  outcome : ATOutcome

/-- Shallow embedding of `anchor_target` (anchor_target.py, lines 6-83).
`img_shapes` lists `img_meta['img_shape'][:2]` per image; `none` models
the failure of the initial length assertion or of the per-image level
assertion inside the concatenation loop (raised before any further work);
`gt_labels_list = none` models the Python default, for which every image
gets `gt_labels = None`. -/
def anchor_target (anchor_list : List (CatState Box))
    (valid_flag_list : List (CatState Bool))
    (gt_bboxes_list : List (List Box)) (img_shapes : List (ℚ × ℚ))
    (target_means target_stds : List ℚ)
    (allowed_border : ℤ) (pos_weight : ℚ)
    (gt_labels_list : Option (List (List ℤ)))
    (sample_fn : List Box → List Box → SamplingResult)
    (bbox2delta_fn : List ℚ → List ℚ → Box → Box → Box)
    (unmap_outputs : Bool) : Option ATReturn :=
  let num_imgs := img_shapes.length
  if ¬ (anchor_list.length = valid_flag_list.length ∧ valid_flag_list.length = num_imgs)
  then none else
  let num_level_anchors :=
    match anchor_list.getD 0 (CatState.flat []) with
    | CatState.levels ls => ls.map List.length
    | CatState.flat l => [l.length]
  match catLoop anchor_list valid_flag_list num_imgs with
  | none => none
  | some (as1, vs1) =>
    let results := (List.range num_imgs).map (fun i =>
      anchor_target_single ((as1.getD i (CatState.flat [])).asFlat)
        ((vs1.getD i (CatState.flat [])).asFlat)
        (gt_bboxes_list.getD i [])
        (match gt_labels_list with
         | none => none
         | some gls => some (gls.getD i []))
        (img_shapes.getD i (0, 0)).1 (img_shapes.getD i (0, 0)).2
        target_means target_stds allowed_border pos_weight
        sample_fn bbox2delta_fn unmap_outputs)
    let outcome :=
      if results.any ATSRes.isErr then ATOutcome.err
      else if results.any ATSRes.isAllNone then ATOutcome.retNone
      else
        let all_labels := results.map (fun r => (r.labelsOpt).getD [])
        let all_label_weights := results.map ATSRes.labelWeightsD
        let all_bbox_targets := results.map ATSRes.bboxTargetsD
        let all_bbox_weights := results.map ATSRes.bboxWeightsD
        let num_total := (all_label_weights.map List.sum).sum
        let num_total_pos := (all_bbox_weights.map (fun w => (w.map boxX1).sum)).sum
        ATOutcome.ok
          (images_to_levels all_labels num_level_anchors)
          (images_to_levels all_label_weights num_level_anchors)
          (images_to_levels all_bbox_targets num_level_anchors)
          (images_to_levels all_bbox_weights num_level_anchors)
          num_total_pos (num_total - num_total_pos)
    some (ATReturn.mk as1 vs1 outcome)

/-! ## Block dataset (mmdet/datasets/custom_block.py) -/

/-- Posix `osp.join` of a directory and a file name. -/
def pjoin (dname base : String) : String := dname ++ "/" ++ base

/-- Python `str.isdigit` for the file stem (ASCII digits). -/
def strIsDigit (s : String) : Bool := s.length ≠ 0 && s.all Char.isDigit

/-- Neighbour file names of `prepare_train_img` (custom_block.py, lines
186-208): entry `j` corresponds to loop offset `i = j - hf`; offset `0` is
the annotated centre frame `fname ++ ext`; any other offset is the frame
at file index `fidx + i * block_gap`, formatted by the external C-style
`'%06d' % _` (abstracted as `fmt6`), or `none` when the stem is not a
digit string or the file does not exist on disk. -/
def buildNameList (dname fname ext : String) (hf gap : ℕ)
    (onDisk : String → Bool) (fmt6 : ℤ → String) : List (Option String) :=
  (List.range (2 * hf + 1)).map (fun j =>
    if j = hf then some (pjoin dname (fname ++ ext))
    else if strIsDigit fname then
      let fidx : ℤ := (fname.toNat?).getD 0
      let other := pjoin dname (fmt6 (fidx + ((j : ℤ) - (hf : ℤ)) * (gap : ℤ)) ++ ext)
      if onDisk other then some other else none
    else none)

/-- One step of the left fill: if slot `j` is `none`, copy slot `j + 1`
into it (`img_name_list[hf-1-i] = img_name_list[hf-i]`). -/
def stepFromRight {α : Type} (l : List (Option α)) (j : ℕ) : List (Option α) :=
  match l.getD j none with
  | none => l.set j (l.getD (j + 1) none)
  | some _ => l

/-- Left fill loop of `prepare_train_img` (custom_block.py, lines
212-214), processing slots `k-1, k-2, ..., 0` in order (the source loop
counter `i` corresponds to slot `hf - 1 - i`). -/
def fillLeftGo {α : Type} : List (Option α) → ℕ → List (Option α)
  | l, 0 => l
  | l, k + 1 => fillLeftGo (stepFromRight l k) k

/-- One step of the right fill: if slot `j` is `none`, copy slot `j - 1`
into it (`img_name_list[hf+1+i] = img_name_list[hf+i]`). -/
def stepFromLeft {α : Type} (l : List (Option α)) (j : ℕ) : List (Option α) :=
  match l.getD j none with
  | none => l.set j (l.getD (j - 1) none)
  | some _ => l

/-- Right fill loop of `prepare_train_img` (custom_block.py, lines
215-217), processing slots `j, j+1, ..., j+c-1` in order. -/
def fillRightGo {α : Type} : List (Option α) → ℕ → ℕ → List (Option α)
  | l, _, 0 => l
  | l, j, c + 1 => fillRightGo (stepFromLeft l j) (j + 1) c

/-- Both fill loops: left slots `hf-1 .. 0`, then right slots
`hf+1 .. 2*hf`. -/
def fillNames {α : Type} (l : List (Option α)) (hf : ℕ) : List (Option α) :=
  fillRightGo (fillLeftGo l hf) (hf + 1) hf

/-- Metadata dictionary of a training sample (custom_block.py, lines
295-300). -/
structure TrainMeta (Shape : Type) where
  ori_shape : ℕ × ℕ × ℕ
  img_shape : Shape
  pad_shape : Shape
  scale_factor : ℚ
  flip : Bool

/-- Data dictionary returned by `prepare_train_img` (custom_block.py,
lines 302-316); `imgs` is the temporal block stacked along a new leading
axis (`np.stack(img_list, axis=0)`), modelled as the list of frames. -/
structure TrainSample (Img Shape : Type) where
  imgs : List Img
  img_meta : TrainMeta Shape
  gt_bboxes : List Box
  proposals : Option (List Box)
  gt_labels : Option (List ℤ)
  gt_bboxes_ignore : Option (List Box)

/-- Result of `prepare_train_img`: `err` is a raised exception
(`ValueError` for `extra_aug`, or the centre-name assertion), `skip` is
`return None`, `ok` a data dictionary. -/
inductive PrepRes (Img Shape : Type) where
  | err
  | skip
  | ok (d : TrainSample Img Shape)

/-- Number of stacked frames in the returned sample (0 on `err`/`skip`). -/
def PrepRes.imgCount {Img Shape : Type} : PrepRes Img Shape → ℕ
  | PrepRes.ok d => d.imgs.length
  | _ => 0

/-- Shallow embedding of `CustomBlockDataset.prepare_train_img`
(custom_block.py, lines 183-316).  External pieces are parameters: the
path split of `img_prefix`-joined `filename` into `dname`/`fname`/`ext`
(`osp` calls), the file-existence test `onDisk`, the `'%06d'` format
`fmt6`, `mmcv.imread` as `readImg`, the drawn flip (`np.random.rand() <
self.flip_ratio`) and the drawn `img_scale` (`random_scale`), the
`ImageTransform` as `img_tf` and the `BboxTransform` as `bbox_tf`.  The
`img_shape`/`pad_shape`/`scale_factor` used after the loop are those of
the last transformed frame, as in the source.  The `with_mask`/`with_seg`
branches only add further externally-transformed fields independent of the
block logic and are not modelled; proposal score columns are likewise not
modelled (boxes here are 4-wide). -/
def prepare_train_img {Img Shape Scale : Type}
    (dname fname ext : String) (block_size block_gap : ℕ)
    (onDisk : String → Bool) (fmt6 : ℤ → String) (readImg : String → Img)
    (img_tf : Img → Scale → Bool → (Img × Shape × Shape × ℚ))
    (bbox_tf : List Box → Shape → ℚ → Bool → List Box)
    (scale : Scale) (flip : Bool)
    (proposals : Option (List Box))
    (gt_bboxes : List Box) (gt_labels : List ℤ) (gt_bboxes_ignore : List Box)
    (with_crowd with_label skip_img_without_anno has_extra_aug : Bool)
    (ori_h ori_w : ℕ) : PrepRes Img Shape :=
  let hf := (block_size - 1) / 2
  let names0 := buildNameList dname fname ext hf block_gap onDisk fmt6
  if names0.contains none ∧ names0.getD hf none = none then PrepRes.err else
  let names := if names0.contains none then fillNames names0 hf else names0
  let img_list0 := names.map (fun nm => readImg (nm.getD ""))
  if (match proposals with | some ps => ps.isEmpty | none => false) then PrepRes.skip else
  if gt_bboxes.isEmpty ∧ skip_img_without_anno then PrepRes.skip else
  if has_extra_aug then PrepRes.err else
  let tfs := img_list0.map (fun im => img_tf im scale flip)
  let img_list := tfs.map (fun r => r.1)
  let lastTf := tfs.getLastD (img_tf (readImg "") scale flip)
  let img_shape := lastTf.2.1
  let pad_shape := lastTf.2.2.1
  let scale_factor := lastTf.2.2.2
  let proposals2 := match proposals with
    | some ps => some (bbox_tf ps img_shape scale_factor flip)
    | none => none
  let gt_bboxes2 := bbox_tf gt_bboxes img_shape scale_factor flip
  let gt_ignore2 := if with_crowd then
      some (bbox_tf gt_bboxes_ignore img_shape scale_factor flip) else none
  PrepRes.ok (TrainSample.mk img_list
    (TrainMeta.mk (ori_h, ori_w, 3) img_shape pad_shape scale_factor flip)
    gt_bboxes2 proposals2
    (if with_label then some gt_labels else none) gt_ignore2)

/-- Shallow embedding of `CustomBlockDataset.__getitem__` in training mode
(custom_block.py, lines 173-181): retry `prepare_train_img` with a freshly
drawn index (`_rand_another`, abstracted as `randAnother` applied to the
current index) until it yields data.  The `while True` loop is modelled
with explicit fuel; `none` means the fuel ran out, a state the Python loop
spins through. -/
def getitemFuel {D : Type} (prepare : ℕ → Option D) (randAnother : ℕ → ℕ) :
    ℕ → ℕ → Option D
  | 0, _ => none
  | fuel + 1, idx =>
    match prepare idx with
    | some d => some d
    | none => getitemFuel prepare randAnother fuel (randAnother idx)

/-! ## Remaining spec-side definitions -/

/-- Spec-side description of `BaseDetector.forward_test`, written from the
amended claim: `TypeError` when `imgs` (checked first) or `img_metas` is
not a list, `ValueError` when the list lengths differ, `IndexError` when
no augmentation at all is given, `AssertionError` unless the first image
tensor's batch dimension is 1, and otherwise dispatch to `simple_test` on
the single augmentation or to `aug_test` on all of them. -/
def forward_test_described {M K R : Type} (d : Detector M K R)
    (imgs : PyList Tensor) (img_metas : PyList M) (kw : K) : Except PyErr R :=
  match imgs, img_metas with
  | PyList.notList ty, _ => Except.error (PyErr.typeErr "imgs" ty)
  | PyList.list _, PyList.notList ty => Except.error (PyErr.typeErr "img_metas" ty)
  | PyList.list il, PyList.list ml =>
    if il.length ≠ ml.length then Except.error (PyErr.valueErr il.length ml.length)
    else match il, ml with
      | [], _ => Except.error PyErr.indexErr
      | im0 :: ilrest, ml =>
        if im0.length ≠ 1 then Except.error PyErr.assertErr
        else match ilrest, ml with
          | [], m0 :: _ => Except.ok (d.simple_test im0 m0 kw)
          | [], [] => Except.error PyErr.indexErr
          | _ :: _, _ => Except.ok (d.aug_test (im0 :: ilrest) ml kw)

/-- Precondition under which `BaseDetector.forward_test` returns normally:
both arguments are lists, of equal length, at least one augmentation is
present, and the first image tensor has batch dimension 1. -/
def FTPre {M : Type} (imgs : PyList Tensor) (img_metas : PyList M) : Prop :=
  match imgs, img_metas with
  | PyList.list il, PyList.list ml =>
    il.length = ml.length ∧ il ≠ [] ∧ (il.headD []).length = 1
  | _, _ => False

/-- State of the `anchor_target` lists after the first `n` iterations of
the concatenation loop: the first `n` entries flattened, the rest
untouched. -/
def catMapN {α : Type} (xs : List (CatState α)) (n : ℕ) : List (CatState α) :=
  (List.range xs.length).map (fun j =>
    if j < n then CatState.flat ((xs.getD j (CatState.flat [])).asFlat)
    else xs.getD j (CatState.flat []))

/-! ## Helper lemmas on the list primitives -/

theorem setAll_length {α : Type} (v : α) :
    ∀ (idxs : List ℕ) (l : List α), (setAll v l idxs).length = l.length
  | [], _ => rfl
  | i :: idxs, l => by
    simp only [setAll, setAll_length v idxs, List.length_set]

theorem setAll_getElem?_notMem {α : Type} (v : α) {p : ℕ} :
    ∀ (idxs : List ℕ) (l : List α), p ∉ idxs → (setAll v l idxs)[p]? = l[p]?
  | [], _, _ => rfl
  | i :: idxs, l, hp => by
    have hpi : p ≠ i := fun h => hp (h ▸ List.mem_cons_self i idxs)
    have hpt : p ∉ idxs := fun h => hp (List.mem_cons_of_mem i h)
    simp only [setAll, setAll_getElem?_notMem v idxs _ hpt,
      List.getElem?_set_ne (Ne.symm hpi)]

theorem setAll_getElem?_mem {α : Type} (v : α) {p : ℕ} :
    ∀ (idxs : List ℕ) (l : List α), p ∈ idxs → p < l.length →
      (setAll v l idxs)[p]? = some v
  | [], _, hp, _ => absurd hp (List.not_mem_nil p)
  | i :: idxs, l, hp, hlen => by
    by_cases ht : p ∈ idxs
    · exact setAll_getElem?_mem v idxs (l.set i v) ht
        (by simpa [List.length_set] using hlen)
    · have hpi : p = i := (List.mem_cons.mp hp).resolve_right ht
      subst hpi
      rw [setAll, setAll_getElem?_notMem v idxs _ ht,
        List.getElem?_set_eq_of_lt v hlen]

theorem setVals_length {α : Type} :
    ∀ (idxs : List ℕ) (vs : List α) (l : List α), (setVals l idxs vs).length = l.length
  | [], _, _ => by simp [setVals]
  | _ :: _, [], _ => by simp [setVals]
  | i :: idxs, v :: vs, l => by
    simp only [setVals, setVals_length idxs vs, List.length_set]

theorem setVals_getElem?_notMem {α : Type} {p : ℕ} :
    ∀ (idxs : List ℕ) (vs : List α) (l : List α), p ∉ idxs →
      (setVals l idxs vs)[p]? = l[p]?
  | [], _, _, _ => by simp [setVals]
  | _ :: _, [], _, _ => by simp [setVals]
  | i :: idxs, v :: vs, l, hp => by
    have hpi : p ≠ i := fun h => hp (h ▸ List.mem_cons_self i idxs)
    have hpt : p ∉ idxs := fun h => hp (List.mem_cons_of_mem i h)
    simp only [setVals, setVals_getElem?_notMem idxs vs _ hpt,
      List.getElem?_set_ne (Ne.symm hpi)]

theorem setVals_getElem?_at {α : Type} :
    ∀ (idxs : List ℕ) (vs : List α) (l : List α) (k p : ℕ) (v : α),
      idxs.Nodup → idxs[k]? = some p → vs[k]? = some v → p < l.length →
      (setVals l idxs vs)[p]? = some v
  | [], _, _, k, _, _, _, hk, _, _ => by simp at hk
  | _ :: _, [], _, k, _, _, _, _, hv, _ => by simp at hv
  | i :: idxs, w :: vs, l, 0, p, v, hnd, hk, hv, hlen => by
    have hpi : p = i := by simpa using hk.symm
    have hvw : v = w := by simpa using hv.symm
    subst hpi; subst hvw
    have hni : p ∉ idxs := (List.nodup_cons.mp hnd).1
    rw [setVals, setVals_getElem?_notMem idxs vs _ hni,
      List.getElem?_set_eq_of_lt v hlen]
  | i :: idxs, w :: vs, l, k + 1, p, v, hnd, hk, hv, hlen => by
    rw [setVals]
    exact setVals_getElem?_at idxs vs (l.set i w) k p v
      (List.nodup_cons.mp hnd).2 (by simpa using hk) (by simpa using hv)
      (by simpa [List.length_set] using hlen)

theorem sum_set_eq : ∀ (l : List ℚ) (i : ℕ) (v x : ℚ), l[i]? = some x →
    (l.set i v).sum = l.sum - x + v
  | [], i, _, _, hx => by simp at hx
  | a :: l, 0, v, x, hx => by
    have hax : a = x := by simpa using hx
    subst hax; simp [List.set]; ring
  | a :: l, i + 1, v, x, hx => by
    have := sum_set_eq l i v x (by simpa using hx)
    simp [List.set, this]; ring

theorem setAll_sum_one :
    ∀ (idxs : List ℕ) (l : List ℚ), idxs.Nodup →
      (∀ i ∈ idxs, i < l.length) → (∀ i ∈ idxs, l[i]? = some 0) →
      (setAll (1 : ℚ) l idxs).sum = l.sum + idxs.length
  | [], l, _, _, _ => by simp [setAll]
  | i :: idxs, l, hnd, hb, h0 => by
    have hi0 : l[i]? = some 0 := h0 i (List.mem_cons_self i idxs)
    have hrec := setAll_sum_one idxs (l.set i 1) (List.nodup_cons.mp hnd).2
      (fun j hj => by simpa [List.length_set] using hb j (List.mem_cons_of_mem i hj))
      (fun j hj => by
        have hji : j ≠ i := fun h =>
          (List.nodup_cons.mp hnd).1 (h ▸ hj)
        rw [List.getElem?_set_ne hji.symm]
        exact h0 j (List.mem_cons_of_mem i hj))
    rw [setAll, hrec, sum_set_eq l i 1 0 hi0]
    simp only [List.length_cons]
    push_cast
    ring

theorem unmap_length {α : Type} :
    ∀ (flags : List Bool) (data : List α) (fill : α),
      (unmap data flags fill).length = flags.length
  | [], _, _ => rfl
  | true :: fs, data, fill => by
    simp [unmap, unmap_length fs data.tail fill]
  | false :: fs, data, fill => by
    simp [unmap, unmap_length fs data fill]

theorem unmap_sum :
    ∀ (flags : List Bool) (data : List ℚ), data.length = flags.count true →
      (unmap data flags 0).sum = data.sum
  | [], data, hl => by
    have : data = [] := List.length_eq_zero.mp (by simpa using hl)
    subst this; rfl
  | true :: fs, data, hl => by
    match data with
    | [] => simp [List.count_cons] at hl
    | d :: ds =>
      have hds : ds.length = fs.count true := by
        simpa [List.count_cons] using hl
      simp [unmap, unmap_sum fs ds hds]
  | false :: fs, data, hl => by
    have hds : data.length = fs.count true := by
      simpa [List.count_cons] using hl
    simp [unmap, unmap_sum fs data hds]

theorem maskSelect_length {α : Type} :
    ∀ (l : List α) (m : List Bool), m.length ≤ l.length →
      (maskSelect l m).length = m.count true
  | [], [], _ => rfl
  | [], _ :: _, h => by simp at h
  | _ :: _, [], _ => rfl
  | a :: l, true :: m, h => by
    simp [maskSelect, maskSelect_length l m (Nat.succ_le_succ_iff.mp h),
      List.count_cons]
  | a :: l, false :: m, h => by
    simp [maskSelect, maskSelect_length l m (Nat.succ_le_succ_iff.mp h),
      List.count_cons]

theorem zipWith_getElem?_eq {α β γ : Type} (f : α → β → γ) :
    ∀ (as : List α) (bs : List β) (k : ℕ) (a : α) (b : β),
      as[k]? = some a → bs[k]? = some b →
      (List.zipWith f as bs)[k]? = some (f a b)
  | [], _, k, _, _, ha, _ => by simp at ha
  | _ :: _, [], k, _, _, _, hb => by simp at hb
  | a0 :: as, b0 :: bs, 0, a, b, ha, hb => by
    have : a0 = a := by simpa using ha
    have hb0 : b0 = b := by simpa using hb
    subst this; subst hb0; simp [List.zipWith]
  | a0 :: as, b0 :: bs, k + 1, a, b, ha, hb => by
    simpa [List.zipWith] using
      zipWith_getElem?_eq f as bs k a b (by simpa using ha) (by simpa using hb)

/-! ## Detector theorems -/

/-- C2: for every detector, image batch, metadata list and keyword
arguments, `BaseDetector.forward` with `return_loss=True` returns exactly
the result of `forward_train(img, img_meta, **kwargs)`, and with
`return_loss=False` exactly the result of
`forward_test(img, img_meta, **kwargs)`. -/
theorem C2_forward_dispatch {M K R : Type} (d : Detector M K R)
    (img : PyList Tensor) (img_meta : PyList M) (kw : K) :
    BaseDetector_forward d img img_meta true kw
        = Except.ok (d.forward_train img img_meta kw) ∧
    BaseDetector_forward d img img_meta false kw
        = BaseDetector_forward_test d img img_meta kw :=
  ⟨rfl, rfl⟩

/-- C7 (amended): `forward_test` raises `TypeError` when `imgs` or
`img_metas` is not a list, `ValueError` when the lengths differ,
`IndexError` when both lists are empty, and `AssertionError` unless the
first image tensor's batch dimension is 1; only then does exactly one
augmentation return `simple_test(imgs[0], img_metas[0], **kwargs)` and
more than one return `aug_test(imgs, img_metas, **kwargs)`. -/
theorem C7_forward_test_characterisation {M K R : Type} (d : Detector M K R)
    (imgs : PyList Tensor) (img_metas : PyList M) (kw : K) :
    BaseDetector_forward_test d imgs img_metas kw
      = forward_test_described d imgs img_metas kw := by
  cases imgs with
  | notList ty => rfl
  | list il =>
    cases img_metas with
    | notList ty => rfl
    | list ml =>
      cases il with
      | nil => simp [BaseDetector_forward_test, forward_test_described]
      | cons im0 rest =>
        cases rest with
        | nil =>
          cases ml with
          | nil => simp [BaseDetector_forward_test, forward_test_described]
          | cons m0 ms =>
            simp [BaseDetector_forward_test, forward_test_described]
        | cons i1 irest =>
          simp [BaseDetector_forward_test, forward_test_described]

/-- C7 counterexample: with exactly one augmentation whose image tensor
has batch dimension 2 (and a matching metadata list), `forward_test` hits
`assert imgs_per_gpu == 1` and raises, instead of returning
`simple_test(imgs[0], img_metas[0], **kwargs)` as the claim states. -/
theorem C7_forward_test_cex :
    BaseDetector_forward_test
        (Detector.mk (fun _ _ _ => 0) (fun _ _ _ => 1) (fun _ _ _ => 2) : Detector ℕ Unit ℕ)
        (PyList.list [([[], []] : Tensor)]) (PyList.list [(5 : ℕ)]) ()
      = Except.error PyErr.assertErr ∧
    (Except.error PyErr.assertErr : Except PyErr ℕ)
      ≠ Except.ok
        ((Detector.mk (fun _ _ _ => 0) (fun _ _ _ => 1) (fun _ _ _ => 2) : Detector ℕ Unit ℕ).simple_test
          ([[], []] : Tensor) (5 : ℕ) ()) :=
  ⟨rfl, fun h => by cases h⟩

/-- C4 (amended): run-time errors of `forward_test` are precondition
checks that halt the call (`forward_test` returns normally exactly when
both arguments are lists of equal length holding at least one
augmentation whose first tensor has batch dimension 1), and
`CustomBlockDataset.__getitem__` performs retry: it returns the prepared
data when `prepare_train_img` succeeds and otherwise re-enters the loop at
a freshly drawn index. -/
theorem C4_error_handling :
    (∀ (M K R : Type) (d : Detector M K R) (imgs : PyList Tensor)
        (img_metas : PyList M) (kw : K),
        (∃ r, BaseDetector_forward_test d imgs img_metas kw = Except.ok r)
          ↔ FTPre imgs img_metas) ∧
    (∀ (D : Type) (prepare : ℕ → Option D) (randAnother : ℕ → ℕ) (fuel idx : ℕ),
        (∀ d, prepare idx = some d →
          getitemFuel prepare randAnother (fuel + 1) idx = some d) ∧
        (prepare idx = none →
          getitemFuel prepare randAnother (fuel + 1) idx
            = getitemFuel prepare randAnother fuel (randAnother idx))) := by
  constructor
  · intro M K R d imgs img_metas kw
    cases imgs with
    | notList ty => simp [BaseDetector_forward_test, FTPre]
    | list il =>
      cases img_metas with
      | notList ty => simp [BaseDetector_forward_test, FTPre]
      | list ml =>
        cases il with
        | nil =>
          simp only [BaseDetector_forward_test, FTPre]
          constructor
          · rintro ⟨r, hr⟩
            split_ifs at hr
          · rintro ⟨-, h, -⟩
            exact absurd rfl h
        | cons im0 rest =>
          simp only [BaseDetector_forward_test, FTPre]
          by_cases hlen : (im0 :: rest).length = ml.length
          · by_cases hb : im0.length = 1
            · cases hrest : rest with
              | nil =>
                cases ml with
                | nil => simp_all
                | cons m0 ms => simp_all
              | cons i1 irest =>
                subst hrest
                rw [if_neg (by simp [hlen]), if_neg (by simp [hb]),
                  if_neg (by simp)]
                simp [hlen, hb]
            · simp_all
          · simp_all
  · intro D prepare randAnother fuel idx
    constructor
    · intro d h
      simp [getitemFuel, h]
    · intro h
      simp [getitemFuel, h]

/-- C4 counterexample: `forward_test` applied to a non-list `imgs` raises
`TypeError`, an explicitly raised exception that is not an assertion
failure, and `__getitem__` recovers from a failing index by re-sampling:
with `prepare_train_img` failing at index 0 and `_rand_another` drawing 1,
it returns the data prepared at index 1. -/
theorem C4_error_handling_cex :
    BaseDetector_forward_test
        (Detector.mk (fun _ _ _ => 0) (fun _ _ _ => 1) (fun _ _ _ => 2) : Detector ℕ Unit ℕ)
        (PyList.notList "Tensor") (PyList.list [(5 : ℕ)]) ()
      = Except.error (PyErr.typeErr "imgs" "Tensor") ∧
    PyErr.typeErr "imgs" "Tensor" ≠ PyErr.assertErr ∧
    getitemFuel (fun i => if i = 0 then none else some (42 : ℕ)) (fun _ => 1) 2 0
      = some 42 :=
  ⟨rfl, fun h => PyErr.noConfusion h, rfl⟩

/-- C4 witness: a concrete call satisfying the precondition returns
normally, and a concrete `__getitem__` step returns the prepared data. -/
theorem C4_error_handling_witness :
    (∃ r, BaseDetector_forward_test
        (Detector.mk (fun _ _ _ => 0) (fun _ _ _ => 1) (fun _ _ _ => 2) : Detector ℕ Unit ℕ)
        (PyList.list [([[]] : Tensor)]) (PyList.list [(5 : ℕ)]) ()
      = Except.ok r) ∧
    getitemFuel (fun _ => some (7 : ℕ)) (fun n => n) 1 0 = some 7 :=
  ⟨(C4_error_handling.1 ℕ Unit ℕ _ _ _ ()).mpr ⟨rfl, by simp, rfl⟩,
   (C4_error_handling.2 ℕ (fun _ => some 7) (fun n => n) 0 0).1 7 rfl⟩

/-! ## Shape lemmas for the neck embedding -/

theorem mem_zipWith {α β γ : Type} {f : α → β → γ} :
    ∀ {l1 : List α} {l2 : List β} {x : γ}, x ∈ List.zipWith f l1 l2 →
      ∃ a ∈ l1, ∃ b ∈ l2, x = f a b
  | [], _, x, h => by simp at h
  | _ :: _, [], x, h => by simp at h
  | a :: as, b :: bs, x, h => by
    rw [List.zipWith_cons_cons] at h
    rcases List.mem_cons.mp h with h1 | h2
    · exact ⟨a, List.mem_cons_self a as, b, List.mem_cons_self b bs, h1⟩
    · obtain ⟨a1, ha1, b1, hb1, rfl⟩ := mem_zipWith h2
      exact ⟨a1, List.mem_cons_of_mem a ha1, b1, List.mem_cons_of_mem b hb1, rfl⟩

theorem rect_adaptiveMaxPool2d {t : Tensor} {n c h w : ℕ} (oh ow : ℕ)
    (ht : IsRect t n c h w) : IsRect (adaptiveMaxPool2d t (oh, ow)) n c oh ow := by
  obtain ⟨hn, hch⟩ := ht
  refine ⟨by simpa [adaptiveMaxPool2d, tensorMapPlane] using hn, ?_⟩
  intro chs' hmem
  simp only [adaptiveMaxPool2d, tensorMapPlane, List.mem_map] at hmem
  obtain ⟨chs, hc, rfl⟩ := hmem
  refine ⟨by simpa using (hch chs hc).1, ?_⟩
  intro p' hp'
  simp only [List.mem_map] at hp'
  obtain ⟨p, _, rfl⟩ := hp'
  constructor
  · simp [planeAdaptiveMaxPool]
  · intro r hr
    simp only [planeAdaptiveMaxPool, List.mem_map, List.mem_range] at hr
    obtain ⟨i, _, rfl⟩ := hr
    simp

theorem rect_interpolateNearest {t : Tensor} {n c h w : ℕ} (oh ow : ℕ)
    (ht : IsRect t n c h w) : IsRect (interpolateNearest t (oh, ow)) n c oh ow := by
  obtain ⟨hn, hch⟩ := ht
  refine ⟨by simpa [interpolateNearest, tensorMapPlane] using hn, ?_⟩
  intro chs' hmem
  simp only [interpolateNearest, tensorMapPlane, List.mem_map] at hmem
  obtain ⟨chs, hc, rfl⟩ := hmem
  refine ⟨by simpa using (hch chs hc).1, ?_⟩
  intro p' hp'
  simp only [List.mem_map] at hp'
  obtain ⟨p, _, rfl⟩ := hp'
  constructor
  · simp [planeInterpNearest]
  · intro r hr
    simp only [planeInterpNearest, List.mem_map, List.mem_range] at hr
    obtain ⟨i, _, rfl⟩ := hr
    simp

theorem rect_tensorAdd {n c h w : ℕ} {t u : Tensor}
    (ht : IsRect t n c h w) (hu : IsRect u n c h w) :
    IsRect (tensorAdd t u) n c h w := by
  obtain ⟨hn1, hc1⟩ := ht
  obtain ⟨hn2, hc2⟩ := hu
  refine ⟨by simp [tensorAdd, List.length_zipWith, hn1, hn2], ?_⟩
  intro cs hcs
  obtain ⟨a, ha, b, hb, rfl⟩ := mem_zipWith hcs
  refine ⟨by simp [List.length_zipWith, (hc1 a ha).1, (hc2 b hb).1], ?_⟩
  intro p hp
  obtain ⟨pa, hpa, pb, hpb, rfl⟩ := mem_zipWith hp
  refine ⟨by simp [List.length_zipWith, ((hc1 a ha).2 pa hpa).1,
    ((hc2 b hb).2 pb hpb).1], ?_⟩
  intro r hr
  obtain ⟨ra, hra, rb, hrb, rfl⟩ := mem_zipWith hr
  simp [List.length_zipWith, ((hc1 a ha).2 pa hpa).2 ra hra,
    ((hc2 b hb).2 pb hpb).2 rb hrb]

theorem rect_foldl_tensorAdd {n c h w : ℕ} :
    ∀ (ts : List Tensor) (acc : Tensor), IsRect acc n c h w →
      (∀ x ∈ ts, IsRect x n c h w) → IsRect (ts.foldl tensorAdd acc) n c h w
  | [], acc, hacc, _ => hacc
  | t :: ts, acc, hacc, hts => by
    refine rect_foldl_tensorAdd ts (tensorAdd acc t)
      (rect_tensorAdd hacc (hts t (List.mem_cons_self t ts))) ?_
    intro x hx
    exact hts x (List.mem_cons_of_mem t hx)

theorem rect_tensorSum {n c h w : ℕ} {ts : List Tensor} (hne : ts ≠ [])
    (hts : ∀ x ∈ ts, IsRect x n c h w) : IsRect (tensorSum ts) n c h w := by
  cases ts with
  | nil => exact absurd rfl hne
  | cons t0 rest =>
    exact rect_foldl_tensorAdd rest t0 (hts t0 (List.mem_cons_self t0 rest))
      (fun x hx => hts x (List.mem_cons_of_mem t0 hx))

theorem rect_tensorScalarDiv {t : Tensor} {n c h w : ℕ} (m : ℕ)
    (ht : IsRect t n c h w) : IsRect (tensorScalarDiv t m) n c h w := by
  obtain ⟨hn, hch⟩ := ht
  refine ⟨by simpa [tensorScalarDiv] using hn, ?_⟩
  intro chs' hmem
  simp only [tensorScalarDiv, List.mem_map] at hmem
  obtain ⟨chs, hc, rfl⟩ := hmem
  refine ⟨by simpa using (hch chs hc).1, ?_⟩
  intro p' hp'
  simp only [List.mem_map] at hp'
  obtain ⟨p, hp, rfl⟩ := hp'
  refine ⟨by simpa using ((hch chs hc).2 p hp).1, ?_⟩
  intro r' hr'
  simp only [List.mem_map] at hr'
  obtain ⟨r, hr, rfl⟩ := hr'
  simpa using ((hch chs hc).2 p hp).2 r hr

theorem tSpatial_rect {t : Tensor} {n c h w : ℕ} (ht : IsRect t n c h w)
    (hn : 0 < n) (hc : 0 < c) (hh : 0 < h) : tSpatial t = (h, w) := by
  obtain ⟨hlen, hch⟩ := ht
  cases t with
  | nil => simp at hlen; omega
  | cons chs t2 =>
    have h1 := hch chs (List.mem_cons_self chs t2)
    cases chs with
    | nil => simp at h1; omega
    | cons p ps =>
      have h2 := h1.2 p (List.mem_cons_self p ps)
      cases p with
      | nil => simp at h2; omega
      | cons r rs =>
        have h3 := h2.2 r (List.mem_cons_self r rs)
        simp [tSpatial, h2.1, h3]

theorem getD_map_range {α : Type} (f : ℕ → α) (d : α) {n i : ℕ} (h : i < n) :
    ((List.range n).map f).getD i d = f i := by
  simp [List.getD_eq_getElem?_getD, List.getElem?_range h]

/-! ## Neck theorems -/

/-- Equation between the source embedding of the `output_single_lvl`
disabled branch and the claim-side description (shared by several
theorems below). -/
theorem bfp_forward_multi_eq (num_levels refine_level : ℕ) (hasRefine : Bool)
    (refine : Tensor → Tensor) (inputs : List Tensor)
    (h : inputs.length = num_levels) :
    BFP_forward num_levels refine_level hasRefine false refine inputs
      = some (List.map PyT.tensor
          (BFP_multi_described num_levels refine_level hasRefine refine inputs)) := by
  simp [BFP_forward, BFP_multi_described, h, List.map_map, Function.comp_def]

/-- Value of `BFP_multi_described` at a level below the full count. -/
theorem bfp_described_getD (num_levels refine_level : ℕ) (hasRefine : Bool)
    (refine : Tensor → Tensor) (inputs : List Tensor) {i : ℕ} (hi : i < num_levels) :
    (BFP_multi_described num_levels refine_level hasRefine refine inputs).getD i []
      = tensorAdd
          (if i < refine_level then
            interpolateNearest
              (if hasRefine then
                refine (tensorScalarDiv (tensorSum ((List.range num_levels).map (fun j =>
                  if j < refine_level then
                    adaptiveMaxPool2d (inputs.getD j []) (tSpatial (inputs.getD refine_level []))
                  else interpolateNearest (inputs.getD j [])
                    (tSpatial (inputs.getD refine_level []))))) num_levels)
              else tensorScalarDiv (tensorSum ((List.range num_levels).map (fun j =>
                  if j < refine_level then
                    adaptiveMaxPool2d (inputs.getD j []) (tSpatial (inputs.getD refine_level []))
                  else interpolateNearest (inputs.getD j [])
                    (tSpatial (inputs.getD refine_level []))))) num_levels)
              (tSpatial (inputs.getD i []))
          else
            adaptiveMaxPool2d
              (if hasRefine then
                refine (tensorScalarDiv (tensorSum ((List.range num_levels).map (fun j =>
                  if j < refine_level then
                    adaptiveMaxPool2d (inputs.getD j []) (tSpatial (inputs.getD refine_level []))
                  else interpolateNearest (inputs.getD j [])
                    (tSpatial (inputs.getD refine_level []))))) num_levels)
              else tensorScalarDiv (tensorSum ((List.range num_levels).map (fun j =>
                  if j < refine_level then
                    adaptiveMaxPool2d (inputs.getD j []) (tSpatial (inputs.getD refine_level []))
                  else interpolateNearest (inputs.getD j [])
                    (tSpatial (inputs.getD refine_level []))))) num_levels)
              (tSpatial (inputs.getD i [])))
          (inputs.getD i []) := by
  rw [BFP_multi_described]
  exact getD_map_range _ _ hi

/-- C3: with `output_single_lvl` disabled, `BFP.forward` computes exactly
the claimed pipeline: resize every level to the `refine_level` spatial
size (adaptive max pooling below, nearest interpolation at or above),
average over `num_levels`, optionally refine, and add to each input the
integrated feature resized back to that input's spatial size. -/
theorem C3_bfp_forward_described (num_levels refine_level : ℕ) (hasRefine : Bool)
    (refine : Tensor → Tensor) (inputs : List Tensor)
    (h : inputs.length = num_levels) :
    BFP_forward num_levels refine_level hasRefine false refine inputs
      = some (List.map PyT.tensor
          (BFP_multi_described num_levels refine_level hasRefine refine inputs)) :=
  bfp_forward_multi_eq num_levels refine_level hasRefine refine inputs h

/-- C3 witness at a concrete one-level input. -/
theorem C3_bfp_forward_described_witness :
    BFP_forward 1 0 false false (fun t => t) [([[[[1]]]] : Tensor)]
      = some (List.map PyT.tensor
          (BFP_multi_described 1 0 false (fun t => t) [([[[[1]]]] : Tensor)])) :=
  C3_bfp_forward_described 1 0 false (fun t => t) [([[[[1]]]] : Tensor)] rfl

/-- C1 counterexample: `FRCNBFP.forward` on a two-level input (with
identity context modules) returns a list with a single concatenated
feature map, not a list of the same length as the input. -/
theorem C1_neck_cex :
    (FRCNBFP_forward 2 1 (fun _ t => t)
        [([[[[1]]]] : Tensor), ([[[[2]]]] : Tensor)]).map List.length = some 1 ∧
    (1 : ℕ) ≠ 2 :=
  ⟨rfl, by decide⟩

/-- C1 (amended): for `BFP` with `output_single_lvl` disabled and a
shape-preserving refine op, `forward` maps `num_levels` rectangular
feature maps to `num_levels` feature maps of the same shapes; `FRCNBFP`
and `BFP` with `output_single_lvl` enabled instead return a single-element
list. -/
theorem C1_neck_shapes (num_levels refine_level nb c : ℕ) (hasRefine : Bool)
    (refine : Tensor → Tensor) (ctx : ℕ → Tensor → Tensor)
    (inputs : List Tensor) (dims : List (ℕ × ℕ))
    (hlen : inputs.length = num_levels)
    (hrl : refine_level < num_levels)
    (hnb : 0 < nb) (hc : 0 < c)
    (hrect : ∀ i, i < num_levels → IsRect (inputs.getD i [])
        nb c (dims.getD i (0, 0)).1 (dims.getD i (0, 0)).2)
    (hpos : ∀ i, i < num_levels → 0 < (dims.getD i (0, 0)).1)
    (hrefine : ∀ t n2 c2 h2 w2, IsRect t n2 c2 h2 w2 → IsRect (refine t) n2 c2 h2 w2) :
    (∃ outs, BFP_forward num_levels refine_level hasRefine false refine inputs
        = some outs ∧ outs.length = num_levels ∧
        ∀ i, i < num_levels → ∃ t, outs.getD i (PyT.group []) = PyT.tensor t ∧
          IsRect t nb c (dims.getD i (0, 0)).1 (dims.getD i (0, 0)).2) ∧
    (∃ outs, BFP_forward num_levels refine_level hasRefine true refine inputs
        = some outs ∧ outs.length = 1) ∧
    (∃ outs, FRCNBFP_forward num_levels refine_level ctx inputs
        = some outs ∧ outs.length = 1) := by
  have hdlen : (BFP_multi_described num_levels refine_level hasRefine refine inputs).length
      = num_levels := by
    simp [BFP_multi_described]
  refine ⟨?_, ?_, ?_⟩
  · -- the multi-level branch of BFP
    rw [bfp_forward_multi_eq num_levels refine_level hasRefine refine inputs hlen]
    refine ⟨_, rfl, by simp [hdlen], ?_⟩
    intro i hi
    refine ⟨(BFP_multi_described num_levels refine_level hasRefine refine inputs).getD i [],
      ?_, ?_⟩
    · simp only [List.getD_eq_getElem?_getD, List.getElem?_map,
        List.getElem?_eq_getElem (by rw [hdlen]; exact hi :
          i < (BFP_multi_described num_levels refine_level hasRefine refine inputs).length)]
      simp
    · rw [bfp_described_getD num_levels refine_level hasRefine refine inputs hi]
      -- shape of the gathered features
      have hgs : tSpatial (inputs.getD refine_level []) =
          ((dims.getD refine_level (0, 0)).1, (dims.getD refine_level (0, 0)).2) :=
        tSpatial_rect (hrect refine_level hrl) hnb hc (hpos refine_level hrl)
      have hfeats : ∀ x ∈ (List.range num_levels).map (fun j =>
          if j < refine_level then
            adaptiveMaxPool2d (inputs.getD j []) (tSpatial (inputs.getD refine_level []))
          else interpolateNearest (inputs.getD j []) (tSpatial (inputs.getD refine_level []))),
          IsRect x nb c (dims.getD refine_level (0, 0)).1 (dims.getD refine_level (0, 0)).2 := by
        intro x hx
        simp only [List.mem_map, List.mem_range] at hx
        obtain ⟨j, hj, rfl⟩ := hx
        rw [hgs]
        by_cases hjr : j < refine_level
        · simpa [hjr] using rect_adaptiveMaxPool2d _ _ (hrect j hj)
        · simpa [hjr] using rect_interpolateNearest _ _ (hrect j hj)
      have hne : ((List.range num_levels).map (fun j =>
          if j < refine_level then
            adaptiveMaxPool2d (inputs.getD j []) (tSpatial (inputs.getD refine_level []))
          else interpolateNearest (inputs.getD j []) (tSpatial (inputs.getD refine_level []))))
          ≠ [] := by
        simp only [ne_eq, List.map_eq_nil_iff, List.range_eq_nil]
        omega
      have hbsf2 : IsRect (if hasRefine then
          refine (tensorScalarDiv (tensorSum ((List.range num_levels).map (fun j =>
            if j < refine_level then
              adaptiveMaxPool2d (inputs.getD j []) (tSpatial (inputs.getD refine_level []))
            else interpolateNearest (inputs.getD j [])
              (tSpatial (inputs.getD refine_level []))))) num_levels)
          else tensorScalarDiv (tensorSum ((List.range num_levels).map (fun j =>
            if j < refine_level then
              adaptiveMaxPool2d (inputs.getD j []) (tSpatial (inputs.getD refine_level []))
            else interpolateNearest (inputs.getD j [])
              (tSpatial (inputs.getD refine_level []))))) num_levels)
          nb c (dims.getD refine_level (0, 0)).1 (dims.getD refine_level (0, 0)).2 := by
        have hbsf := rect_tensorScalarDiv num_levels (rect_tensorSum hne hfeats)
        by_cases hr : hasRefine
        · simpa [hr] using hrefine _ _ _ _ _ hbsf
        · simpa [hr] using hbsf
      have hout : tSpatial (inputs.getD i []) =
          ((dims.getD i (0, 0)).1, (dims.getD i (0, 0)).2) :=
        tSpatial_rect (hrect i hi) hnb hc (hpos i hi)
      by_cases hir : i < refine_level
      · simp only [hir, if_true]
        exact rect_tensorAdd (by rw [hout]; exact rect_interpolateNearest _ _ hbsf2)
          (hrect i hi)
      · simp only [hir, if_false]
        exact rect_tensorAdd (by rw [hout]; exact rect_adaptiveMaxPool2d _ _ hbsf2)
          (hrect i hi)
  · -- BFP with output_single_lvl returns a singleton
    rw [BFP_forward, if_neg (by simp [hlen])]
    cases hasRefine
    · exact ⟨_, rfl, rfl⟩
    · exact ⟨_, rfl, rfl⟩
  · -- FRCNBFP returns a singleton
    rw [FRCNBFP_forward, if_neg (by simp [hlen])]
    exact ⟨_, rfl, rfl⟩

/-- C1 witness at concrete two-level inputs of shapes 1×1×1×1 and
1×1×2×2. -/
theorem C1_neck_shapes_witness :
    (∃ outs, BFP_forward 2 1 false false (fun t => t)
        [([[[[1]]]] : Tensor), ([[[[1, 2], [3, 4]]]] : Tensor)]
        = some outs ∧ outs.length = 2 ∧
        ∀ i, i < 2 → ∃ t, outs.getD i (PyT.group []) = PyT.tensor t ∧
          IsRect t 1 1 (([((1 : ℕ), (1 : ℕ)), (2, 2)].getD i (0, 0)).1)
            (([((1 : ℕ), (1 : ℕ)), (2, 2)].getD i (0, 0)).2)) ∧
    (∃ outs, BFP_forward 2 1 false true (fun t => t)
        [([[[[1]]]] : Tensor), ([[[[1, 2], [3, 4]]]] : Tensor)]
        = some outs ∧ outs.length = 1) ∧
    (∃ outs, FRCNBFP_forward 2 1 (fun _ t => t)
        [([[[[1]]]] : Tensor), ([[[[1, 2], [3, 4]]]] : Tensor)]
        = some outs ∧ outs.length = 1) :=
  C1_neck_shapes 2 1 1 1 false (fun t => t) (fun _ t => t)
    [([[[[1]]]] : Tensor), ([[[[1, 2], [3, 4]]]] : Tensor)]
    [(1, 1), (2, 2)] rfl (by decide) (by decide) (by decide)
    (by decide) (by decide) (fun t n2 c2 h2 w2 h => h)

/-! ## Anchor-target lemmas -/

theorem ite_isEmpty_setAll {α : Type} (v : α) (l : List α) (idxs : List ℕ) :
    (if idxs.isEmpty then l else setAll v l idxs) = setAll v l idxs := by
  cases idxs <;> simp [setAll]

theorem ite_isEmpty_setVals {α : Type} (l : List α) (idxs : List ℕ) (vs : List α) :
    (if idxs.isEmpty then l else setVals l idxs vs) = setVals l idxs vs := by
  cases idxs <;> simp [setVals]

theorem inside_length (fa : List Box) (vf : List Bool) (img_h img_w : ℚ) (b : ℤ)
    (hl : fa.length = vf.length) :
    (anchor_inside_flags fa vf img_h img_w b).length = fa.length := by
  unfold anchor_inside_flags
  split_ifs <;> simp [List.length_zipWith, hl]

theorem lw_sum_eq (n : ℕ) (pos neg : List ℕ)
    (hnd1 : pos.Nodup) (hnd2 : neg.Nodup)
    (hdisj : ∀ p ∈ pos, p ∉ neg)
    (hb1 : ∀ p ∈ pos, p < n) (hb2 : ∀ p ∈ neg, p < n) :
    (setAll (1 : ℚ) (setAll 1 (List.replicate n 0) pos) neg).sum
      = (pos.length : ℚ) + neg.length := by
  have h1 := setAll_sum_one pos (List.replicate n 0) hnd1
    (fun i hi => by simpa using hb1 i hi)
    (fun i hi => by simp [List.getElem?_replicate, hb1 i hi])
  have h2 := setAll_sum_one neg (setAll 1 (List.replicate n 0) pos) hnd2
    (fun i hi => by simpa [setAll_length] using hb2 i hi)
    (fun i hi => by
      have hip : i ∉ pos := fun hmem => hdisj i hmem hi
      rw [setAll_getElem?_notMem _ pos _ hip]
      simp [List.getElem?_replicate, hb2 i hi])
  rw [h2, h1]
  simp [List.sum_replicate]

/-- Core computation lemma for the sampled branch of
`anchor_target_single`: under a well-formed sampling result, a non-empty
ground truth and at least one inside anchor, the function reaches its
final assertion, the assertion holds, and the six results are the written
target lists (optionally unmapped). -/
theorem anchor_target_single_ok
    (fa : List Box) (vf : List Bool) (gt : List Box) (gl : Option (List ℤ))
    (img_h img_w : ℚ) (means stds : List ℚ) (border : ℤ) (pw : ℚ)
    (sample_fn : List Box → List Box → SamplingResult)
    (b2dF : List ℚ → List ℚ → Box → Box → Box) (unm : Bool)
    (inside : List Bool) (anchors : List Box) (n : ℕ) (sr : SamplingResult)
    (hins : inside = anchor_inside_flags fa vf img_h img_w border)
    (hanch : anchors = maskSelect fa inside)
    (hn : n = anchors.length)
    (hsr : sr = sample_fn anchors gt)
    (hl : fa.length = vf.length)
    (hin : inside.any id = true)
    (hgt : gt ≠ [])
    (hwf : WFSampling sr n gt.length)
    (hpw : pw ≤ 0) :
    anchor_target_single fa vf gt gl img_h img_w means stds border pw sample_fn b2dF unm
      = ATSRes.res
          (if unm then unmap (match gl with
              | none => setAll 1 (List.replicate n (0 : ℤ)) sr.pos_inds
              | some g => setVals (List.replicate n (0 : ℤ)) sr.pos_inds
                  (sr.pos_assigned_gt_inds.map (fun x => g.getD x 0))) inside 0
            else (match gl with
              | none => setAll 1 (List.replicate n (0 : ℤ)) sr.pos_inds
              | some g => setVals (List.replicate n (0 : ℤ)) sr.pos_inds
                  (sr.pos_assigned_gt_inds.map (fun x => g.getD x 0))))
          (if unm then unmap (setAll (1 : ℚ)
              (setAll 1 (List.replicate n 0) sr.pos_inds) sr.neg_inds) inside 0
            else setAll (1 : ℚ) (setAll 1 (List.replicate n 0) sr.pos_inds) sr.neg_inds)
          (if unm then unmap (setVals (List.replicate n ((0, 0, 0, 0) : Box)) sr.pos_inds
              (List.zipWith (b2dF means stds)
                (sr.pos_inds.map (fun p => anchors.getD p (0, 0, 0, 0)))
                (sr.pos_assigned_gt_inds.map (fun g => gt.getD g (0, 0, 0, 0)))))
              inside (0, 0, 0, 0)
            else setVals (List.replicate n ((0, 0, 0, 0) : Box)) sr.pos_inds
              (List.zipWith (b2dF means stds)
                (sr.pos_inds.map (fun p => anchors.getD p (0, 0, 0, 0)))
                (sr.pos_assigned_gt_inds.map (fun g => gt.getD g (0, 0, 0, 0)))))
          (if unm then unmap (setAll ((1, 1, 1, 1) : Box)
              (List.replicate n ((0, 0, 0, 0) : Box)) sr.pos_inds) inside (0, 0, 0, 0)
            else setAll ((1, 1, 1, 1) : Box)
              (List.replicate n ((0, 0, 0, 0) : Box)) sr.pos_inds)
          (some sr.pos_inds) (some sr.neg_inds) := by
  subst hins hanch hn hsr
  obtain ⟨hnd1, hnd2, hdisj, hb1, hb2, hglen, hgb⟩ := hwf
  have hgte : gt.isEmpty = false := by
    cases gt with
    | nil => exact absurd rfl hgt
    | cons a l => rfl
  have hnotpos : ¬(((sample_fn
      (maskSelect fa (anchor_inside_flags fa vf img_h img_w border)) gt).pos_inds.isEmpty
        = false) ∧ 0 < pw) :=
    fun hcon => absurd hcon.2 (not_lt.mpr hpw)
  have hLWlen : (setAll (1 : ℚ) (setAll 1 (List.replicate
      (maskSelect fa (anchor_inside_flags fa vf img_h img_w border)).length 0)
      (sample_fn (maskSelect fa (anchor_inside_flags fa vf img_h img_w border)) gt).pos_inds)
      (sample_fn (maskSelect fa (anchor_inside_flags fa vf img_h img_w border)) gt).neg_inds).length
      = (anchor_inside_flags fa vf img_h img_w border).count true := by
    rw [setAll_length, setAll_length, List.length_replicate]
    exact maskSelect_length fa _ (le_of_eq (inside_length fa vf img_h img_w border hl))
  have hsum : (setAll (1 : ℚ) (setAll 1 (List.replicate
      (maskSelect fa (anchor_inside_flags fa vf img_h img_w border)).length 0)
      (sample_fn (maskSelect fa (anchor_inside_flags fa vf img_h img_w border)) gt).pos_inds)
      (sample_fn (maskSelect fa (anchor_inside_flags fa vf img_h img_w border)) gt).neg_inds).sum
      = ((sample_fn (maskSelect fa (anchor_inside_flags fa vf img_h img_w border)) gt).pos_inds.length : ℚ)
        + (sample_fn (maskSelect fa (anchor_inside_flags fa vf img_h img_w border)) gt).neg_inds.length :=
    lw_sum_eq _ _ _ hnd1 hnd2 hdisj hb1 hb2
  have hsum2 : (if unm then unmap (setAll (1 : ℚ) (setAll 1 (List.replicate
      (maskSelect fa (anchor_inside_flags fa vf img_h img_w border)).length 0)
      (sample_fn (maskSelect fa (anchor_inside_flags fa vf img_h img_w border)) gt).pos_inds)
      (sample_fn (maskSelect fa (anchor_inside_flags fa vf img_h img_w border)) gt).neg_inds)
      (anchor_inside_flags fa vf img_h img_w border) 0
    else setAll (1 : ℚ) (setAll 1 (List.replicate
      (maskSelect fa (anchor_inside_flags fa vf img_h img_w border)).length 0)
      (sample_fn (maskSelect fa (anchor_inside_flags fa vf img_h img_w border)) gt).pos_inds)
      (sample_fn (maskSelect fa (anchor_inside_flags fa vf img_h img_w border)) gt).neg_inds).sum
      = ((sample_fn (maskSelect fa (anchor_inside_flags fa vf img_h img_w border)) gt).pos_inds.length : ℚ)
        + (sample_fn (maskSelect fa (anchor_inside_flags fa vf img_h img_w border)) gt).neg_inds.length := by
    cases unm
    · simpa using hsum
    · simp only [if_true]
      rw [unmap_sum _ _ hLWlen]
      exact hsum
  cases gl with
  | none =>
    simp only [anchor_target_single, hin, hgte, Bool.true_eq_false, Bool.false_eq_true,
      if_false, ite_false, ite_isEmpty_setAll, ite_isEmpty_setVals]
    rw [if_neg hnotpos]
    rw [if_neg (by
      intro hne
      apply hne
      rw [hsum2]
      push_cast
      ring)]
  | some g =>
    simp only [anchor_target_single, hin, hgte, Bool.true_eq_false, Bool.false_eq_true,
      if_false, ite_false, ite_isEmpty_setAll, ite_isEmpty_setVals]
    rw [if_neg hnotpos]
    rw [if_neg (by
      intro hne
      apply hne
      rw [hsum2]
      push_cast
      ring)]

/-- C10: on every path of `anchor_target_single` that reaches the final
assertion (non-empty ground truth, some anchor inside the border, and a
well-formed external sampling result), the assertion holds: the function
returns normally and the sum of the returned label weights equals the
number of sampled positives plus the number of sampled negatives. -/
theorem C10_assert_holds
    (fa : List Box) (vf : List Bool) (gt : List Box) (gl : Option (List ℤ))
    (img_h img_w : ℚ) (means stds : List ℚ) (border : ℤ) (pw : ℚ)
    (sample_fn : List Box → List Box → SamplingResult)
    (b2dF : List ℚ → List ℚ → Box → Box → Box) (unm : Bool)
    (inside : List Bool) (anchors : List Box) (n : ℕ) (sr : SamplingResult)
    (hins : inside = anchor_inside_flags fa vf img_h img_w border)
    (hanch : anchors = maskSelect fa inside)
    (hn : n = anchors.length)
    (hsr : sr = sample_fn anchors gt)
    (hl : fa.length = vf.length)
    (hin : inside.any id = true)
    (hgt : gt ≠ [])
    (hwf : WFSampling sr n gt.length)
    (hpw : pw ≤ 0) :
    ∃ L LW BT BW,
      anchor_target_single fa vf gt gl img_h img_w means stds border pw sample_fn b2dF unm
        = ATSRes.res L LW BT BW (some sr.pos_inds) (some sr.neg_inds) ∧
      LW.sum = (sr.pos_inds.length : ℚ) + sr.neg_inds.length := by
  refine ⟨_, _, _, _,
    anchor_target_single_ok fa vf gt gl img_h img_w means stds border pw sample_fn b2dF unm
      inside anchors n sr hins hanch hn hsr hl hin hgt hwf hpw, ?_⟩
  obtain ⟨hnd1, hnd2, hdisj, hb1, hb2, hglen, hgb⟩ := hwf
  have hLWlen : (setAll (1 : ℚ) (setAll 1 (List.replicate n 0) sr.pos_inds)
      sr.neg_inds).length = inside.count true := by
    rw [setAll_length, setAll_length, List.length_replicate, hn, hanch]
    exact maskSelect_length fa _
      (le_of_eq (by rw [hins]; exact inside_length fa vf img_h img_w border hl))
  have hsum : (setAll (1 : ℚ) (setAll 1 (List.replicate n 0) sr.pos_inds)
      sr.neg_inds).sum = (sr.pos_inds.length : ℚ) + sr.neg_inds.length :=
    lw_sum_eq n sr.pos_inds sr.neg_inds hnd1 hnd2 hdisj hb1 hb2
  cases unm
  · simpa using hsum
  · simp only [if_true]
    rw [unmap_sum _ _ hLWlen]
    exact hsum

/-- C10 witness: one anchor inside a 10×10 image, one ground-truth box,
sampler returning positive index 0 and no negatives. -/
theorem C10_assert_holds_witness :
    ∃ L LW BT BW,
      anchor_target_single [((0 : ℚ), (0 : ℚ), (1 : ℚ), (1 : ℚ))] [true]
          [((0 : ℚ), (0 : ℚ), (2 : ℚ), (2 : ℚ))] none 10 10 [] [] (-1) 0
          (fun _ _ => SamplingResult.mk [0] [] [0])
          (fun _ _ _ g => g) true
        = ATSRes.res L LW BT BW (some [0]) (some []) ∧
      LW.sum = (([0] : List ℕ).length : ℚ) + ([] : List ℕ).length :=
  C10_assert_holds [((0 : ℚ), (0 : ℚ), (1 : ℚ), (1 : ℚ))] [true]
    [((0 : ℚ), (0 : ℚ), (2 : ℚ), (2 : ℚ))] none 10 10 [] [] (-1) 0
    (fun _ _ => SamplingResult.mk [0] [] [0]) (fun _ _ _ g => g) true
    [true] [((0 : ℚ), (0 : ℚ), (1 : ℚ), (1 : ℚ))] 1 (SamplingResult.mk [0] [] [0])
    (by decide) (by decide) (by decide) rfl rfl (by decide) (by decide)
    (by decide) (by decide)

/-- C5: for an image with non-empty ground truth and at least one inside
anchor (and without the final unmapping, so that indices refer to the
inside anchors that were sampled), `anchor_target_single` gives each
sampled positive anchor the `bbox2delta` encoding of its assigned
ground-truth box with bbox weight 1 and label weight 1, each sampled
negative anchor label weight 1, and every anchor sampled neither positive
nor negative keeps zero label weight and zero bbox weight. -/
theorem C5_anchor_target_single_targets
    (fa : List Box) (vf : List Bool) (gt : List Box) (gl : Option (List ℤ))
    (img_h img_w : ℚ) (means stds : List ℚ) (border : ℤ) (pw : ℚ)
    (sample_fn : List Box → List Box → SamplingResult)
    (b2dF : List ℚ → List ℚ → Box → Box → Box)
    (inside : List Bool) (anchors : List Box) (n : ℕ) (sr : SamplingResult)
    (hins : inside = anchor_inside_flags fa vf img_h img_w border)
    (hanch : anchors = maskSelect fa inside)
    (hn : n = anchors.length)
    (hsr : sr = sample_fn anchors gt)
    (hl : fa.length = vf.length)
    (hin : inside.any id = true)
    (hgt : gt ≠ [])
    (hwf : WFSampling sr n gt.length)
    (hpw : pw ≤ 0) :
    ∃ L LW BT BW,
      anchor_target_single fa vf gt gl img_h img_w means stds border pw sample_fn b2dF false
        = ATSRes.res L LW BT BW (some sr.pos_inds) (some sr.neg_inds) ∧
      (∀ (k p g : ℕ), sr.pos_inds[k]? = some p → sr.pos_assigned_gt_inds[k]? = some g →
        BT[p]? = some (b2dF means stds (anchors.getD p (0, 0, 0, 0))
            (gt.getD g (0, 0, 0, 0))) ∧
        BW[p]? = some ((1, 1, 1, 1) : Box) ∧ LW[p]? = some 1) ∧
      (∀ p ∈ sr.neg_inds, LW[p]? = some 1) ∧
      (∀ p, p < n → p ∉ sr.pos_inds → p ∉ sr.neg_inds →
        LW[p]? = some 0 ∧ BW[p]? = some ((0, 0, 0, 0) : Box)) := by
  obtain ⟨hnd1, hnd2, hdisj, hb1, hb2, hglen, hgb⟩ := hwf
  refine ⟨_, _, _, _,
    anchor_target_single_ok fa vf gt gl img_h img_w means stds border pw sample_fn b2dF false
      inside anchors n sr hins hanch hn hsr hl hin hgt
      ⟨hnd1, hnd2, hdisj, hb1, hb2, hglen, hgb⟩ hpw, ?_, ?_, ?_⟩
  · -- positive anchors
    intro k p g hk hg
    have hp_mem : p ∈ sr.pos_inds := List.getElem?_mem hk
    have hp_lt : p < n := hb1 p hp_mem
    refine ⟨?_, ?_, ?_⟩
    · -- bbox target
      simp only [Bool.false_eq_true, if_false]
      refine setVals_getElem?_at sr.pos_inds _ _ k p _ hnd1 hk ?_
        (by simpa using hp_lt)
      exact zipWith_getElem?_eq _ _ _ k _ _
        (by rw [List.getElem?_map, hk]; rfl)
        (by rw [List.getElem?_map, hg]; rfl)
    · -- bbox weight
      simp only [Bool.false_eq_true, if_false]
      exact setAll_getElem?_mem _ sr.pos_inds _ hp_mem (by simpa using hp_lt)
    · -- label weight
      simp only [Bool.false_eq_true, if_false]
      rw [setAll_getElem?_notMem _ sr.neg_inds _ (hdisj p hp_mem)]
      exact setAll_getElem?_mem _ sr.pos_inds _ hp_mem (by simpa using hp_lt)
  · -- negative anchors
    intro p hp
    have hp_lt : p < n := hb2 p hp
    simp only [Bool.false_eq_true, if_false]
    exact setAll_getElem?_mem _ sr.neg_inds _ hp
      (by simpa [setAll_length] using hp_lt)
  · -- anchors sampled neither positive nor negative
    intro p hp hnp hnn
    constructor
    · simp only [Bool.false_eq_true, if_false]
      rw [setAll_getElem?_notMem _ sr.neg_inds _ hnn,
        setAll_getElem?_notMem _ sr.pos_inds _ hnp]
      simp [List.getElem?_replicate, hp]
    · simp only [Bool.false_eq_true, if_false]
      rw [setAll_getElem?_notMem _ sr.pos_inds _ hnp]
      simp [List.getElem?_replicate, hp]

/-- C5 witness: one anchor, one ground-truth box, sampler returning
positive index 0 assigned to ground-truth 0 and no negatives. -/
theorem C5_anchor_target_single_targets_witness :
    ∃ L LW BT BW,
      anchor_target_single [((0 : ℚ), (0 : ℚ), (1 : ℚ), (1 : ℚ))] [true]
          [((0 : ℚ), (0 : ℚ), (2 : ℚ), (2 : ℚ))] none 10 10 [] [] (-1) 0
          (fun _ _ => SamplingResult.mk [0] [] [0])
          (fun _ _ _ g => g) false
        = ATSRes.res L LW BT BW (some [0]) (some []) ∧
      (∀ (k p g : ℕ), ([0] : List ℕ)[k]? = some p → ([0] : List ℕ)[k]? = some g →
        BT[p]? = some (([((0 : ℚ), (0 : ℚ), (2 : ℚ), (2 : ℚ))].getD g (0, 0, 0, 0))) ∧
        BW[p]? = some ((1, 1, 1, 1) : Box) ∧ LW[p]? = some 1) ∧
      (∀ p ∈ ([] : List ℕ), LW[p]? = some 1) ∧
      (∀ p, p < 1 → p ∉ ([0] : List ℕ) → p ∉ ([] : List ℕ) →
        LW[p]? = some 0 ∧ BW[p]? = some ((0, 0, 0, 0) : Box)) :=
  C5_anchor_target_single_targets [((0 : ℚ), (0 : ℚ), (1 : ℚ), (1 : ℚ))] [true]
    [((0 : ℚ), (0 : ℚ), (2 : ℚ), (2 : ℚ))] none 10 10 [] [] (-1) 0
    (fun _ _ => SamplingResult.mk [0] [] [0]) (fun _ _ _ g => g)
    [true] [((0 : ℚ), (0 : ℚ), (1 : ℚ), (1 : ℚ))] 1 (SamplingResult.mk [0] [] [0])
    (by decide) (by decide) (by decide) rfl rfl (by decide) (by decide)
    (by decide) (by decide)

/-! ## Concatenation-loop lemmas for anchor_target -/

theorem getD_map_of_lt {α β : Type} (f : α → β) (l : List α) (d : β) (d2 : α)
    {i : ℕ} (h : i < l.length) : (l.map f).getD i d = f (l.getD i d2) := by
  simp [List.getD_eq_getElem?_getD, List.getElem?_eq_getElem, h]

theorem catMapN_length {α : Type} (xs : List (CatState α)) (n : ℕ) :
    (catMapN xs n).length = xs.length := by
  simp [catMapN]

theorem catMapN_getElem? {α : Type} (xs : List (CatState α)) (n j : ℕ) :
    (catMapN xs n)[j]? = if j < xs.length then
      some (if j < n then CatState.flat ((xs.getD j (CatState.flat [])).asFlat)
        else xs.getD j (CatState.flat [])) else none := by
  by_cases hj : j < xs.length
  · simp [catMapN, List.getElem?_map, List.getElem?_range hj, hj]
  · rw [if_neg hj]
    apply List.getElem?_eq_none
    simpa [catMapN_length] using Nat.le_of_not_lt hj

theorem catMapN_zero {α : Type} (xs : List (CatState α)) : catMapN xs 0 = xs := by
  apply List.ext_getElem?
  intro j
  rw [catMapN_getElem?]
  by_cases hj : j < xs.length
  · simp [hj, List.getD_eq_getElem?_getD, List.getElem?_eq_getElem hj]
  · simp [hj, List.getElem?_eq_none (Nat.le_of_not_lt hj)]

theorem catMapN_succ {α : Type} (xs : List (CatState α)) (n : ℕ) (hn : n < xs.length) :
    catMapN xs (n + 1)
      = (catMapN xs n).set n (CatState.flat ((xs.getD n (CatState.flat [])).asFlat)) := by
  apply List.ext_getElem?
  intro j
  by_cases hjn : j = n
  · subst hjn
    rw [List.getElem?_set_eq_of_lt _ (by simpa [catMapN_length] using hn)]
    rw [catMapN_getElem?]
    simp [hn]
  · rw [List.getElem?_set_ne (Ne.symm hjn), catMapN_getElem?, catMapN_getElem?]
    by_cases hj : j < xs.length
    · have : (j < n + 1) = (j < n) := by
        apply propext
        omega
      simp [hj, this]
    · simp [hj]

theorem catMapN_stable_getD {α : Type} (xs : List (CatState α)) (n j : ℕ)
    (hj : n ≤ j) :
    (catMapN xs n).getD j (CatState.flat []) = xs.getD j (CatState.flat []) := by
  rw [List.getD_eq_getElem?_getD, catMapN_getElem?]
  by_cases hlt : j < xs.length
  · simp [hlt, Nat.not_lt.mpr hj, List.getD_eq_getElem?_getD,
      List.getElem?_eq_getElem hlt]
  · simp [hlt, List.getD_eq_getElem?_getD, List.getElem?_eq_none (Nat.le_of_not_lt hlt)]

theorem catLoop_eq {α β : Type} (as0 : List (CatState α)) (vs0 : List (CatState β)) :
    ∀ n, n ≤ as0.length → as0.length = vs0.length →
      (∀ i, i < n → (as0.getD i (CatState.flat [])).pyLen
        = (vs0.getD i (CatState.flat [])).pyLen) →
      catLoop as0 vs0 n = some (catMapN as0 n, catMapN vs0 n)
  | 0, _, _, _ => by simp [catLoop, catMapN_zero]
  | n + 1, hn, hlen, hpl => by
    rw [catLoop, catLoop_eq as0 vs0 n (Nat.le_of_succ_le hn) hlen
      (fun i hi => hpl i (Nat.lt_succ_of_lt hi))]
    dsimp only
    have hstA := catMapN_stable_getD as0 n n (le_refl n)
    have hstV := catMapN_stable_getD vs0 n n (le_refl n)
    rw [hstA, hstV, if_neg (by
      rw [hpl n (Nat.lt_succ_self n)]
      exact fun h => h rfl)]
    rw [← catMapN_succ as0 n (Nat.lt_of_succ_le hn),
      ← catMapN_succ vs0 n (by rw [← hlen]; exact Nat.lt_of_succ_le hn)]

theorem catMapN_full_map {α : Type} (xs : List (List (List α))) :
    catMapN (xs.map CatState.levels) (xs.map CatState.levels).length
      = xs.map (fun ls => CatState.flat ls.flatten) := by
  apply List.ext_getElem?
  intro j
  rw [catMapN_getElem?]
  by_cases hj : j < xs.length
  · rw [if_pos (by simpa using hj), if_pos (by simpa using hj)]
    rw [getD_map_of_lt CatState.levels xs (CatState.flat []) [] hj]
    rw [List.getElem?_map, List.getElem?_eq_getElem hj]
    simp [CatState.asFlat, List.getD_eq_getElem?_getD, List.getElem?_eq_getElem hj]
  · rw [if_neg (by simpa using hj)]
    rw [List.getElem?_eq_none (by simpa using Nat.le_of_not_lt hj)]

theorem ATSRes.isErr_true {r : ATSRes} (h : r.isErr = true) : r = ATSRes.err := by
  cases r <;> simp [ATSRes.isErr] at h ⊢

/-- A call of `anchor_target_single` whose inside flags are all false
takes the `return (None, ) * 6` path. -/
theorem anchor_target_single_allNone
    (fa : List Box) (vf : List Bool) (gt : List Box) (gl : Option (List ℤ))
    (img_h img_w : ℚ) (means stds : List ℚ) (border : ℤ) (pw : ℚ)
    (sample_fn : List Box → List Box → SamplingResult)
    (b2dF : List ℚ → List ℚ → Box → Box → Box) (unm : Bool)
    (hflags : (anchor_inside_flags fa vf img_h img_w border).any id = false) :
    anchor_target_single fa vf gt gl img_h img_w means stds border pw sample_fn b2dF unm
      = ATSRes.allNone := by
  simp [anchor_target_single, hflags]

/-- With a well-formed sampler and non-positive `pos_weight`, no assertion
inside `anchor_target_single` can fail. -/
theorem anchor_target_single_ne_err
    (fa : List Box) (vf : List Bool) (gt : List Box) (gl : Option (List ℤ))
    (img_h img_w : ℚ) (means stds : List ℚ) (border : ℤ) (pw : ℚ)
    (sample_fn : List Box → List Box → SamplingResult)
    (b2dF : List ℚ → List ℚ → Box → Box → Box) (unm : Bool)
    (hl : fa.length = vf.length)
    (hwf : WFSampling
      (sample_fn (maskSelect fa (anchor_inside_flags fa vf img_h img_w border)) gt)
      (maskSelect fa (anchor_inside_flags fa vf img_h img_w border)).length gt.length)
    (hpw : pw ≤ 0) :
    anchor_target_single fa vf gt gl img_h img_w means stds border pw sample_fn b2dF unm
      ≠ ATSRes.err := by
  by_cases hany : (anchor_inside_flags fa vf img_h img_w border).any id = true
  · by_cases hgt : gt = []
    · subst hgt
      simp [anchor_target_single, hany]
    · rw [anchor_target_single_ok fa vf gt gl img_h img_w means stds border pw
        sample_fn b2dF unm _ _ _ _ rfl rfl rfl rfl hl hany hgt hwf hpw]
      exact fun h => ATSRes.noConfusion h
  · have hany2 : (anchor_inside_flags fa vf img_h img_w border).any id = false := by
      cases h2 : (anchor_inside_flags fa vf img_h img_w border).any id
      · rfl
      · exact absurd h2 hany
    rw [anchor_target_single_allNone fa vf gt gl img_h img_w means stds border pw
      sample_fn b2dF unm hany2]
    exact fun h => ATSRes.noConfusion h

/-- C8: `anchor_target` mutates `anchor_list` and `valid_flag_list` in
place: after the call, each per-image entry has been replaced by the
concatenation of its per-level tensors into a single flat tensor. -/
theorem C8_anchor_target_mutation
    (al : List (List (List Box))) (vl : List (List (List Bool)))
    (gt_bboxes_list : List (List Box)) (img_shapes : List (ℚ × ℚ))
    (means stds : List ℚ) (border : ℤ) (pw : ℚ)
    (gl_list : Option (List (List ℤ)))
    (sample_fn : List Box → List Box → SamplingResult)
    (b2dF : List ℚ → List ℚ → Box → Box → Box) (unm : Bool)
    (hlen1 : al.length = vl.length) (hlen2 : vl.length = img_shapes.length)
    (hlv : ∀ i, i < img_shapes.length →
      (al.getD i []).length = (vl.getD i []).length) :
    ∃ ret, anchor_target (al.map CatState.levels) (vl.map CatState.levels)
        gt_bboxes_list img_shapes means stds border pw gl_list sample_fn b2dF unm
      = some ret ∧
      ret.anchors_after = al.map (fun ls => CatState.flat ls.flatten) ∧
      ret.valids_after = vl.map (fun ls => CatState.flat ls.flatten) := by
  have hal : al.length = img_shapes.length := hlen1.trans hlen2
  have hcat := catLoop_eq (al.map CatState.levels) (vl.map CatState.levels)
    img_shapes.length (le_of_eq (by simp [hal])) (by simp [hlen1])
    (fun i hi => by
      rw [getD_map_of_lt CatState.levels al (CatState.flat []) [] (by omega),
        getD_map_of_lt CatState.levels vl (CatState.flat []) []
          (by rw [hlen2]; exact hi)]
      exact hlv i hi)
  have hfullA : catMapN (al.map CatState.levels) img_shapes.length
      = al.map (fun ls => CatState.flat ls.flatten) := by
    rw [show img_shapes.length = (al.map CatState.levels).length by simp [hal]]
    exact catMapN_full_map al
  have hfullV : catMapN (vl.map CatState.levels) img_shapes.length
      = vl.map (fun ls => CatState.flat ls.flatten) := by
    rw [show img_shapes.length = (vl.map CatState.levels).length by simp [hlen2]]
    exact catMapN_full_map vl
  rw [hfullA, hfullV] at hcat
  simp only [anchor_target]
  rw [if_neg (not_not_intro ⟨by simp [hlen1], by simp [hlen2]⟩), hcat]
  exact ⟨_, rfl, rfl, rfl⟩

/-- C8 witness: one image with one level holding one anchor. -/
theorem C8_anchor_target_mutation_witness :
    ∃ ret, anchor_target
        ([[[((0 : ℚ), (0 : ℚ), (1 : ℚ), (1 : ℚ))]]].map CatState.levels)
        ([[[true]]].map CatState.levels)
        [[((0 : ℚ), (0 : ℚ), (2 : ℚ), (2 : ℚ))]] [((10 : ℚ), (10 : ℚ))] [] [] (-1) 0
        none (fun _ _ => SamplingResult.mk [] [] []) (fun _ _ _ g => g) false
      = some ret ∧
      ret.anchors_after
        = [[[((0 : ℚ), (0 : ℚ), (1 : ℚ), (1 : ℚ))]]].map (fun ls => CatState.flat ls.flatten) ∧
      ret.valids_after = [[[true]]].map (fun ls => CatState.flat ls.flatten) :=
  C8_anchor_target_mutation [[[((0 : ℚ), (0 : ℚ), (1 : ℚ), (1 : ℚ))]]] [[[true]]]
    [[((0 : ℚ), (0 : ℚ), (2 : ℚ), (2 : ℚ))]] [((10 : ℚ), (10 : ℚ))] [] [] (-1) 0
    none (fun _ _ => SamplingResult.mk [] [] []) (fun _ _ _ g => g) false
    rfl rfl (by decide)

/-- C9: `anchor_target` returns `None` whenever at least one image has no
anchor passing the inside-the-border validity test (given well-formed
lists and a well-formed sampler, so that no assertion fires first); no
partial targets are returned in that case. -/
theorem C9_anchor_target_returns_none
    (al : List (List (List Box))) (vl : List (List (List Bool)))
    (gt_bboxes_list : List (List Box)) (img_shapes : List (ℚ × ℚ))
    (means stds : List ℚ) (border : ℤ) (pw : ℚ)
    (gl_list : Option (List (List ℤ)))
    (sample_fn : List Box → List Box → SamplingResult)
    (b2dF : List ℚ → List ℚ → Box → Box → Box) (unm : Bool)
    (hlen1 : al.length = vl.length) (hlen2 : vl.length = img_shapes.length)
    (hlv : ∀ i, i < img_shapes.length →
      (al.getD i []).length = (vl.getD i []).length)
    (hfl : ∀ i, i < img_shapes.length →
      (al.getD i []).flatten.length = (vl.getD i []).flatten.length)
    (hwfAll : ∀ (anchors gtb : List Box),
      WFSampling (sample_fn anchors gtb) anchors.length gtb.length)
    (hpw : pw ≤ 0)
    (hno : ∃ i, i < img_shapes.length ∧
      (anchor_inside_flags ((al.getD i []).flatten) ((vl.getD i []).flatten)
        (img_shapes.getD i (0, 0)).1 (img_shapes.getD i (0, 0)).2 border).any id
        = false) :
    ∃ ret, anchor_target (al.map CatState.levels) (vl.map CatState.levels)
        gt_bboxes_list img_shapes means stds border pw gl_list sample_fn b2dF unm
      = some ret ∧ ret.outcome = ATOutcome.retNone := by
  have hal : al.length = img_shapes.length := hlen1.trans hlen2
  have hcat := catLoop_eq (al.map CatState.levels) (vl.map CatState.levels)
    img_shapes.length (le_of_eq (by simp [hal])) (by simp [hlen1])
    (fun i hi => by
      rw [getD_map_of_lt CatState.levels al (CatState.flat []) [] (by omega),
        getD_map_of_lt CatState.levels vl (CatState.flat []) []
          (by rw [hlen2]; exact hi)]
      exact hlv i hi)
  have hfullA : catMapN (al.map CatState.levels) img_shapes.length
      = al.map (fun ls => CatState.flat ls.flatten) := by
    rw [show img_shapes.length = (al.map CatState.levels).length by simp [hal]]
    exact catMapN_full_map al
  have hfullV : catMapN (vl.map CatState.levels) img_shapes.length
      = vl.map (fun ls => CatState.flat ls.flatten) := by
    rw [show img_shapes.length = (vl.map CatState.levels).length by simp [hlen2]]
    exact catMapN_full_map vl
  rw [hfullA, hfullV] at hcat
  have egetA : ∀ i, i < img_shapes.length →
      ((al.map (fun ls => CatState.flat ls.flatten)).getD i (CatState.flat [])).asFlat
        = (al.getD i []).flatten := by
    intro i hi
    rw [getD_map_of_lt (fun ls => CatState.flat ls.flatten) al (CatState.flat []) []
      (by omega)]
    rfl
  have egetV : ∀ i, i < img_shapes.length →
      ((vl.map (fun ls => CatState.flat ls.flatten)).getD i (CatState.flat [])).asFlat
        = (vl.getD i []).flatten := by
    intro i hi
    rw [getD_map_of_lt (fun ls => CatState.flat ls.flatten) vl (CatState.flat []) []
      (by rw [hlen2]; exact hi)]
    rfl
  have h_err : ((List.range img_shapes.length).map (fun i =>
      anchor_target_single
        (((al.map (fun ls => CatState.flat ls.flatten)).getD i (CatState.flat [])).asFlat)
        (((vl.map (fun ls => CatState.flat ls.flatten)).getD i (CatState.flat [])).asFlat)
        (gt_bboxes_list.getD i [])
        (match gl_list with
         | none => none
         | some gls => some (gls.getD i []))
        (img_shapes.getD i (0, 0)).1 (img_shapes.getD i (0, 0)).2
        means stds border pw sample_fn b2dF unm)).any ATSRes.isErr = false := by
    rw [List.any_eq_false]
    intro x hx
    simp only [List.mem_map, List.mem_range] at hx
    obtain ⟨i, hi, rfl⟩ := hx
    rw [egetA i hi, egetV i hi]
    intro hcon
    exact anchor_target_single_ne_err _ _ _ _ _ _ _ _ _ _ _ _ _
      (hfl i hi) (hwfAll _ _) hpw (ATSRes.isErr_true hcon)
  simp only [anchor_target]
  rw [if_neg (not_not_intro ⟨by simp [hlen1], by simp [hlen2]⟩), hcat]
  refine ⟨_, rfl, ?_⟩
  dsimp only
  simp only [h_err]
  rw [if_neg (by simp)]
  split_ifs with hC
  · rfl
  · exfalso
    apply hC
    rw [List.any_eq_true]
    obtain ⟨i, hi, hflags⟩ := hno
    refine ⟨_, List.mem_map.mpr ⟨i, List.mem_range.mpr hi, rfl⟩, ?_⟩
    rw [egetA i hi, egetV i hi]
    rw [anchor_target_single_allNone _ _ _ _ _ _ _ _ _ _ _ _ _ hflags]
    rfl

/-- C9 witness: a single image whose only anchor carries a false valid
flag, so that no anchor is inside and `anchor_target` returns `None`. -/
theorem C9_anchor_target_returns_none_witness :
    ∃ ret, anchor_target
        ([[[((0 : ℚ), (0 : ℚ), (1 : ℚ), (1 : ℚ))]]].map CatState.levels)
        ([[[false]]].map CatState.levels)
        [[((0 : ℚ), (0 : ℚ), (2 : ℚ), (2 : ℚ))]] [((10 : ℚ), (10 : ℚ))] [] [] (-1) 0
        none (fun _ _ => SamplingResult.mk [] [] []) (fun _ _ _ g => g) true
      = some ret ∧ ret.outcome = ATOutcome.retNone :=
  C9_anchor_target_returns_none [[[((0 : ℚ), (0 : ℚ), (1 : ℚ), (1 : ℚ))]]] [[[false]]]
    [[((0 : ℚ), (0 : ℚ), (2 : ℚ), (2 : ℚ))]] [((10 : ℚ), (10 : ℚ))] [] [] (-1) 0
    none (fun _ _ => SamplingResult.mk [] [] []) (fun _ _ _ g => g) true
    rfl rfl (by decide) (by decide)
    (fun a g => ⟨List.nodup_nil, List.nodup_nil,
      fun p hp => absurd hp (List.not_mem_nil p),
      fun p hp => absurd hp (List.not_mem_nil p),
      fun p hp => absurd hp (List.not_mem_nil p), rfl,
      fun x hx => absurd hx (List.not_mem_nil x)⟩)
    (by decide) ⟨0, by decide, by decide⟩

/-! ## Fill-loop lemmas for the block dataset -/

theorem stepFromRight_length {α : Type} (l : List (Option α)) (j : ℕ) :
    (stepFromRight l j).length = l.length := by
  unfold stepFromRight
  cases l.getD j none <;> simp

theorem stepFromRight_getD_ne {α : Type} (l : List (Option α)) {j j' : ℕ}
    (h : j' ≠ j) : (stepFromRight l j).getD j' none = l.getD j' none := by
  unfold stepFromRight
  cases l.getD j none
  · simp [List.getD_eq_getElem?_getD, List.getElem?_set_ne (Ne.symm h)]
  · rfl

theorem stepFromRight_getD_self {α : Type} (l : List (Option α)) {j : ℕ}
    (h : j < l.length) :
    (stepFromRight l j).getD j none = (l.getD j none).or (l.getD (j + 1) none) := by
  unfold stepFromRight
  cases hj : l.getD j none
  · simp [List.getD_eq_getElem?_getD, List.getElem?_set_eq_of_lt _ h]
  · exact hj

theorem stepFromLeft_length {α : Type} (l : List (Option α)) (j : ℕ) :
    (stepFromLeft l j).length = l.length := by
  unfold stepFromLeft
  cases l.getD j none <;> simp

theorem stepFromLeft_getD_ne {α : Type} (l : List (Option α)) {j j' : ℕ}
    (h : j' ≠ j) : (stepFromLeft l j).getD j' none = l.getD j' none := by
  unfold stepFromLeft
  cases l.getD j none
  · simp [List.getD_eq_getElem?_getD, List.getElem?_set_ne (Ne.symm h)]
  · rfl

theorem stepFromLeft_getD_self {α : Type} (l : List (Option α)) {j : ℕ}
    (h : j < l.length) :
    (stepFromLeft l j).getD j none = (l.getD j none).or (l.getD (j - 1) none) := by
  unfold stepFromLeft
  cases hj : l.getD j none
  · simp [List.getD_eq_getElem?_getD, List.getElem?_set_eq_of_lt _ h]
  · exact hj

theorem fillLeftGo_length {α : Type} :
    ∀ (k : ℕ) (l : List (Option α)), (fillLeftGo l k).length = l.length
  | 0, _ => rfl
  | k + 1, l => by
    rw [fillLeftGo, fillLeftGo_length k, stepFromRight_length]

theorem fillLeftGo_stable {α : Type} :
    ∀ (k : ℕ) (l : List (Option α)) (j : ℕ), k ≤ j →
      (fillLeftGo l k).getD j none = l.getD j none
  | 0, _, _, _ => rfl
  | k + 1, l, j, hj => by
    rw [fillLeftGo, fillLeftGo_stable k _ j (by omega),
      stepFromRight_getD_ne l (by omega)]

theorem fillLeftGo_rec {α : Type} :
    ∀ (k : ℕ) (l : List (Option α)), k ≤ l.length → ∀ j, j < k →
      (fillLeftGo l k).getD j none
        = (l.getD j none).or ((fillLeftGo l k).getD (j + 1) none)
  | 0, _, _, _, hj => absurd hj (Nat.not_lt_zero _)
  | k + 1, l, hk, j, hj => by
    by_cases hjk : j < k
    · rw [fillLeftGo, fillLeftGo_rec k (stepFromRight l k)
        (by rw [stepFromRight_length]; omega) j hjk,
        stepFromRight_getD_ne l (by omega)]
    · have hje : j = k := by omega
      subst hje
      rw [fillLeftGo, fillLeftGo_stable j _ j (le_refl j),
        fillLeftGo_stable j _ (j + 1) (by omega),
        stepFromRight_getD_ne l (by omega : j + 1 ≠ j),
        stepFromRight_getD_self l (by omega)]

theorem fillRightGo_length {α : Type} :
    ∀ (c : ℕ) (l : List (Option α)) (j : ℕ), (fillRightGo l j c).length = l.length
  | 0, _, _ => rfl
  | c + 1, l, j => by
    rw [fillRightGo, fillRightGo_length c, stepFromLeft_length]

theorem fillRightGo_stable {α : Type} :
    ∀ (c : ℕ) (l : List (Option α)) (j j' : ℕ), j' < j →
      (fillRightGo l j c).getD j' none = l.getD j' none
  | 0, _, _, _, _ => rfl
  | c + 1, l, j, j', hj => by
    rw [fillRightGo, fillRightGo_stable c _ (j + 1) j' (by omega),
      stepFromLeft_getD_ne l (by omega)]

theorem fillRightGo_rec {α : Type} :
    ∀ (c : ℕ) (l : List (Option α)) (j : ℕ), 0 < j → j + c ≤ l.length →
      ∀ m, m < c →
      (fillRightGo l j c).getD (j + m) none
        = (l.getD (j + m) none).or ((fillRightGo l j c).getD (j + m - 1) none)
  | 0, _, _, _, _, _, hm => absurd hm (Nat.not_lt_zero _)
  | c + 1, l, j, hj, hlen, m, hm => by
    cases m with
    | zero =>
      simp only [Nat.add_zero]
      rw [fillRightGo,
        fillRightGo_stable c _ (j + 1) j (by omega),
        fillRightGo_stable c _ (j + 1) (j - 1) (by omega),
        stepFromLeft_getD_ne l (by omega : j - 1 ≠ j),
        stepFromLeft_getD_self l (by omega)]
    | succ m' =>
      have h1 := fillRightGo_rec c (stepFromLeft l j) (j + 1) (by omega)
        (by rw [stepFromLeft_length]; omega) m' (by omega)
      rw [fillRightGo]
      have e1 : j + 1 + m' = j + (m' + 1) := by omega
      rw [e1] at h1
      rw [h1, stepFromLeft_getD_ne l (by omega : j + (m' + 1) ≠ j)]

theorem buildNameList_length (dname fname ext : String) (hf gap : ℕ)
    (onDisk : String → Bool) (fmt6 : ℤ → String) :
    (buildNameList dname fname ext hf gap onDisk fmt6).length = 2 * hf + 1 := by
  simp [buildNameList]

theorem buildNameList_center (dname fname ext : String) (hf gap : ℕ)
    (onDisk : String → Bool) (fmt6 : ℤ → String) :
    (buildNameList dname fname ext hf gap onDisk fmt6).getD hf none
      = some (pjoin dname (fname ++ ext)) := by
  unfold buildNameList
  rw [getD_map_range _ _ (by omega : hf < 2 * hf + 1)]
  simp

theorem fillNames_center {α : Type} (l : List (Option α)) (hf : ℕ) :
    (fillNames l hf).getD hf none = l.getD hf none := by
  rw [fillNames, fillRightGo_stable hf _ (hf + 1) hf (by omega),
    fillLeftGo_stable hf l hf (le_refl hf)]

theorem fillNames_left {α : Type} (l : List (Option α)) (hf : ℕ)
    (hlen : l.length = 2 * hf + 1) (j : ℕ) (hj : j < hf) :
    (fillNames l hf).getD j none
      = (l.getD j none).or ((fillNames l hf).getD (j + 1) none) := by
  rw [fillNames, fillRightGo_stable hf _ (hf + 1) j (by omega),
    fillRightGo_stable hf _ (hf + 1) (j + 1) (by omega),
    fillLeftGo_rec hf l (by omega) j hj]

theorem fillNames_right {α : Type} (l : List (Option α)) (hf : ℕ)
    (hlen : l.length = 2 * hf + 1) (j : ℕ) (hj1 : hf < j) (hj2 : j ≤ 2 * hf) :
    (fillNames l hf).getD j none
      = (l.getD j none).or ((fillNames l hf).getD (j - 1) none) := by
  have hrec := fillRightGo_rec hf (fillLeftGo l hf) (hf + 1) (by omega)
    (by rw [fillLeftGo_length]; omega) (j - hf - 1) (by omega)
  have hm : j = hf + 1 + (j - hf - 1) := by omega
  rw [fillNames, hm, hrec,
    fillLeftGo_stable hf l (hf + 1 + (j - hf - 1)) (by omega)]

theorem fillNames_length {α : Type} (l : List (Option α)) (hf : ℕ) :
    (fillNames l hf).length = l.length := by
  rw [fillNames, fillRightGo_length, fillLeftGo_length]

theorem Option_or_of_ne_none {α : Type} {o : Option α} (x : Option α)
    (h : o ≠ none) : o.or x = o := by
  cases o
  · exact absurd rfl h
  · rfl

theorem getD_ne_none_of_not_contains {α : Type} [BEq α] [LawfulBEq α]
    (l : List (Option α)) (j : ℕ)
    (hc : l.contains none = false) (hj : j < l.length) : l.getD j none ≠ none := by
  intro hnone
  have hmem : (none : Option α) ∈ l := by
    rw [← hnone, List.getD_eq_getElem?_getD, List.getElem?_eq_getElem hj]
    exact List.getElem_mem hj
  have helem := List.elem_eq_true_of_mem hmem
  rw [List.contains, helem] at hc
  exact Bool.noConfusion hc

/-- C6 counterexample: with `block_size = 4` the loaded block has
`2 * int((4-1)/2) + 1 = 3` frames, not 4. -/
theorem C6_block_count_cex :
    PrepRes.imgCount (prepare_train_img "d" "" ".x" 4 1 (fun _ => true) (fun _ => "9")
      (fun _ => (0 : ℕ)) (fun im _ _ => (im, (0 : ℕ), (0 : ℕ), (1 : ℚ)))
      (fun b _ _ _ => b) (0 : ℕ) false none
      [((0 : ℚ), (0 : ℚ), (1 : ℚ), (1 : ℚ))] [1] [] true true true false 5 5) = 3 ∧
    (3 : ℕ) ≠ 4 :=
  ⟨rfl, by decide⟩

/-- C6 (amended): for a training sample with a non-empty ground-truth box
set, no proposals and no extra augmentation, `prepare_train_img` loads a
temporal block of exactly `2*⌊(block_size-1)/2⌋ + 1` images (equal to
`block_size` whenever `block_size` is odd): the annotated centre frame
plus `⌊(block_size-1)/2⌋` frames on each side at file-index stride
`block_gap`, where a slot whose neighbour frame is unavailable is filled
with the nearest available frame toward the centre; the same drawn scale
and flip are applied to every frame, and the transformed frames are
stacked into the `imgs` entry of the returned sample. -/
theorem C6_prepare_block {Img Shape Scale : Type}
    (dname fname ext : String) (block_size block_gap hf : ℕ)
    (onDisk : String → Bool) (fmt6 : ℤ → String) (readImg : String → Img)
    (img_tf : Img → Scale → Bool → (Img × Shape × Shape × ℚ))
    (bbox_tf : List Box → Shape → ℚ → Bool → List Box)
    (scale : Scale) (flip : Bool)
    (gt_bboxes : List Box) (gt_labels : List ℤ) (gt_bboxes_ignore : List Box)
    (with_crowd with_label skip_img_without_anno : Bool)
    (ori_h ori_w : ℕ)
    (hhf : hf = (block_size - 1) / 2)
    (hgt : gt_bboxes ≠ []) :
    ∃ d names,
      prepare_train_img dname fname ext block_size block_gap onDisk fmt6 readImg
          img_tf bbox_tf scale flip none gt_bboxes gt_labels gt_bboxes_ignore
          with_crowd with_label skip_img_without_anno false ori_h ori_w
        = PrepRes.ok d ∧
      names = (if (buildNameList dname fname ext hf block_gap onDisk fmt6).contains none
        then fillNames (buildNameList dname fname ext hf block_gap onDisk fmt6) hf
        else buildNameList dname fname ext hf block_gap onDisk fmt6) ∧
      d.imgs = names.map (fun nm => (img_tf (readImg (nm.getD "")) scale flip).1) ∧
      d.imgs.length = 2 * hf + 1 ∧
      d.img_meta.flip = flip ∧
      names.getD hf none = some (pjoin dname (fname ++ ext)) ∧
      (∀ j, j < hf → names.getD j none
        = ((buildNameList dname fname ext hf block_gap onDisk fmt6).getD j none).or
            (names.getD (j + 1) none)) ∧
      (∀ j, hf < j → j ≤ 2 * hf → names.getD j none
        = ((buildNameList dname fname ext hf block_gap onDisk fmt6).getD j none).or
            (names.getD (j - 1) none)) := by
  subst hhf
  have hcenter := buildNameList_center dname fname ext ((block_size - 1) / 2) block_gap
    onDisk fmt6
  have hblen := buildNameList_length dname fname ext ((block_size - 1) / 2) block_gap
    onDisk fmt6
  simp only [prepare_train_img]
  rw [if_neg (fun hcon => by
    rw [hcenter] at hcon
    exact Option.noConfusion hcon.2)]
  rw [if_neg (by simp)]
  rw [if_neg (fun hcon => hgt (by simpa using hcon.1))]
  rw [if_neg (by simp)]
  refine ⟨_, _, rfl, rfl, ?_, ?_, rfl, ?_, ?_, ?_⟩
  · simp [List.map_map, Function.comp_def]
  · -- number of stacked frames
    simp only [List.length_map]
    by_cases hc : (buildNameList dname fname ext ((block_size - 1) / 2) block_gap
        onDisk fmt6).contains none
    · rw [if_pos hc, fillNames_length, hblen]
    · rw [if_neg hc, hblen]
  · -- centre slot
    by_cases hc : (buildNameList dname fname ext ((block_size - 1) / 2) block_gap
        onDisk fmt6).contains none
    · rw [if_pos hc, fillNames_center, hcenter]
    · rw [if_neg hc, hcenter]
  · -- left slots are filled toward the centre
    intro j hj
    by_cases hc : (buildNameList dname fname ext ((block_size - 1) / 2) block_gap
        onDisk fmt6).contains none
    · rw [if_pos hc]
      exact fillNames_left _ _ hblen j hj
    · rw [if_neg hc]
      have hcf : (buildNameList dname fname ext ((block_size - 1) / 2) block_gap
          onDisk fmt6).contains none = false := by
        revert hc
        cases (buildNameList dname fname ext ((block_size - 1) / 2) block_gap
          onDisk fmt6).contains none <;> simp
      rw [Option_or_of_ne_none _
        (getD_ne_none_of_not_contains _ j hcf (by omega))]
  · -- right slots are filled toward the centre
    intro j hj1 hj2
    by_cases hc : (buildNameList dname fname ext ((block_size - 1) / 2) block_gap
        onDisk fmt6).contains none
    · rw [if_pos hc]
      exact fillNames_right _ _ hblen j hj1 hj2
    · rw [if_neg hc]
      have hcf : (buildNameList dname fname ext ((block_size - 1) / 2) block_gap
          onDisk fmt6).contains none = false := by
        revert hc
        cases (buildNameList dname fname ext ((block_size - 1) / 2) block_gap
          onDisk fmt6).contains none <;> simp
      rw [Option_or_of_ne_none _
        (getD_ne_none_of_not_contains _ j hcf (by omega))]

/-- C6 witness at `block_size = 5` (a 5-frame block around the centre). -/
theorem C6_prepare_block_witness :
    ∃ d names,
      prepare_train_img "d" "" ".x" 5 1 (fun _ => true) (fun _ => "9")
          (fun _ => (0 : ℕ)) (fun im _ _ => (im, (0 : ℕ), (0 : ℕ), (1 : ℚ)))
          (fun b _ _ _ => b) (0 : ℕ) false none
          [((0 : ℚ), (0 : ℚ), (1 : ℚ), (1 : ℚ))] [1] [] true true true false 5 5
        = PrepRes.ok d ∧
      names = (if (buildNameList "d" "" ".x" 2 1 (fun _ => true)
            (fun _ => "9")).contains none
        then fillNames (buildNameList "d" "" ".x" 2 1 (fun _ => true) (fun _ => "9")) 2
        else buildNameList "d" "" ".x" 2 1 (fun _ => true) (fun _ => "9")) ∧
      d.imgs = names.map (fun _ => (0 : ℕ)) ∧
      d.imgs.length = 2 * 2 + 1 ∧
      d.img_meta.flip = false ∧
      names.getD 2 none = some (pjoin "d" ("" ++ ".x")) ∧
      (∀ j, j < 2 → names.getD j none
        = ((buildNameList "d" "" ".x" 2 1 (fun _ => true) (fun _ => "9")).getD j none).or
            (names.getD (j + 1) none)) ∧
      (∀ j, 2 < j → j ≤ 2 * 2 → names.getD j none
        = ((buildNameList "d" "" ".x" 2 1 (fun _ => true) (fun _ => "9")).getD j none).or
            (names.getD (j - 1) none)) :=
  C6_prepare_block "d" "" ".x" 5 1 2 (fun _ => true) (fun _ => "9")
    (fun _ => (0 : ℕ)) (fun im _ _ => (im, (0 : ℕ), (0 : ℕ), (1 : ℚ)))
    (fun b _ _ _ => b) (0 : ℕ) false
    [((0 : ℚ), (0 : ℚ), (1 : ℚ), (1 : ℚ))] [1] [] true true true 5 5
    rfl (by decide)
